import Mathlib

/-!
Verification development for the MQTT-Simulator policy generator
(`policy_simulator.py`).  The Python source is shallowly embedded: every
dictionary-shaped record becomes a structure, Python dicts (insertion-ordered,
first-occurrence update) become association lists, the global Mersenne-Twister
random generator becomes an explicit deterministic state threaded through the
pipeline (the claims proved below depend only on determinism and on the range
of draws, never on the distribution), Python floats become exact rationals, and
fallible code returns `Except`.
-/

namespace PolicySim

/-! ## Association lists modelling Python dicts

`alookup` is `d.get(k)` (first matching entry), `dictSet` is `d[k] = v`
(replace in place, else append at the end — Python dicts preserve insertion
order), `gAppend` is `d.setdefault(k, []).append(x)`. -/

def alookup {α β : Type} [DecidableEq α] (k : α) : List (α × β) → Option β
  | [] => none
  | (k', v) :: rest => if k' = k then some v else alookup k rest

def dictSet {α β : Type} [DecidableEq α] (m : List (α × β)) (k : α) (v : β) :
    List (α × β) :=
  match m with
  | [] => [(k, v)]
  | (k', v') :: rest => if k' = k then (k, v) :: rest else (k', v') :: dictSet rest k v

def gAppend {α β : Type} [DecidableEq α] (m : List (α × List β)) (k : α) (x : β) :
    List (α × List β) :=
  match m with
  | [] => [(k, [x])]
  | (k', b) :: rest => if k' = k then (k', b ++ [x]) :: rest else (k', b) :: gAppend rest k x

/-! ## Character-list string helpers (Python `str` methods) -/

/-- Python `s.split(sep)` on a single-character separator. -/
def chSplit (sep : Char) : List Char → List (List Char)
  | [] => [[]]
  | c :: rest =>
    let r := chSplit sep rest
    if c = sep then [] :: r
    else match r with
      | [] => [[c]]
      | h :: t => (c :: h) :: t

def pySplit (sep : Char) (s : String) : List String :=
  (chSplit sep s.data).map (fun l => String.mk l)

/-- One left-to-right pass of Python `s.replace('//', '/')` (non-overlapping). -/
def collapseDS : List Char → List Char
  | '/' :: '/' :: rest => '/' :: collapseDS rest
  | c :: rest => c :: collapseDS rest
  | [] => []

/-- Python `s.strip(c)`: drop the character from both ends. -/
def chStrip (c : Char) (l : List Char) : List Char :=
  ((l.dropWhile (· = c)).reverse.dropWhile (· = c)).reverse

def pyStrip (c : Char) (s : String) : String := String.mk (chStrip c s.data)

/-- Python `'#' in s` for a single character. -/
def chContains (c : Char) (s : String) : Bool := s.data.contains c

def chInfix (needle : List Char) : List Char → Bool
  | [] => needle.isEmpty
  | c :: rest => List.isPrefixOf needle (c :: rest) || chInfix needle rest

/-- Python `needle in hay` substring test. -/
def pyIn (needle hay : String) : Bool := chInfix needle.data hay.data

def pyStarts (pre s : String) : Bool := List.isPrefixOf pre.data s.data

def pyEnds (suf s : String) : Bool := List.isSuffixOf suf.data s.data

def pyLower (s : String) : String := String.mk (s.data.map Char.toLower)

/-- Python `s.split('#')[0]`: the part before the first `'#'`. -/
def hashHead (s : String) : String := String.mk (s.data.takeWhile (· ≠ '#'))

/-- Python `s.replace('#', '')`: remove every `'#'`. -/
def removeHash (s : String) : String := String.mk (s.data.filter (· ≠ '#'))

/-! ## Exact fractions standing in for Python floats

Python floats appear only in weights, draws and quota shares.  They are
modelled by exact fractions with a positive denominator and no normalization,
so that every arithmetic step is a pair of integer operations the proof
checker can evaluate.  The claims proved here never depend on rounding
behaviour, only on signs, comparisons and exact ratios. -/

structure PRat where
  num : Int
  den : Int
deriving DecidableEq, Repr

instance (n : Nat) : OfNat PRat n := ⟨⟨Int.ofNat n, 1⟩⟩

def PRat.ofInt (n : Int) : PRat := ⟨n, 1⟩

def PRat.ofNat (n : Nat) : PRat := ⟨Int.ofNat n, 1⟩

instance : Add PRat := ⟨fun a b => ⟨a.num * b.den + b.num * a.den, a.den * b.den⟩⟩

instance : Mul PRat := ⟨fun a b => ⟨a.num * b.num, a.den * b.den⟩⟩

instance : Neg PRat := ⟨fun a => ⟨-a.num, a.den⟩⟩

instance : Sub PRat := ⟨fun a b => a + (-b)⟩

instance : Div PRat :=
  ⟨fun a b =>
    let n := a.num * b.den
    let d := a.den * b.num
    if d < 0 then ⟨-n, -d⟩ else ⟨n, d⟩⟩

instance : LE PRat := ⟨fun a b => a.num * b.den ≤ b.num * a.den⟩

instance : LT PRat := ⟨fun a b => a.num * b.den < b.num * a.den⟩

instance (a b : PRat) : Decidable (a ≤ b) :=
  inferInstanceAs (Decidable (a.num * b.den ≤ b.num * a.den))

instance (a b : PRat) : Decidable (a < b) :=
  inferInstanceAs (Decidable (a.num * b.den < b.num * a.den))

def PRat.floor (a : PRat) : Int := Int.fdiv a.num a.den

/-! ## The random generator

`random` is the single process-global generator; `random.seed(i)` resets it.
The Mersenne Twister itself is modelled by a simple deterministic congruential
step: the claims below depend only on the facts that the stream is a pure
function of the seed and that `random.random()` lands in `[0, 1)`. -/

structure RngState where
  x : Nat
deriving DecidableEq, Repr

def seedState (i : Int) : RngState := ⟨i.natAbs % 2147483648⟩

def rngNext (s : RngState) : Nat × RngState :=
  let y := (s.x * 1103515245 + 12345) % 2147483648
  (y, ⟨y⟩)

/-- `random.random()`: a fraction in `[0, 1)`. -/
def randFloat (s : RngState) : PRat × RngState :=
  let (y, s') := rngNext s
  (⟨Int.ofNat y, 2147483648⟩, s')

/-- `random.choice(xs)` on a list that is non-empty by construction. -/
def randChoice (c : String) (cs : List String) (s : RngState) : String × RngState :=
  let (y, s') := rngNext s
  ((c :: cs).getD (y % (c :: cs).length) c, s')

/-! ## Python scalar values and conversions

Configuration weights may be numbers, strings or `null`; `pyFloatOr0` is
`float(v)` under `try/except` returning `0.0` on failure, `pyIntOfStr` is
`int(s)` for a decimal string (`none` models the `ValueError`). -/

inductive PVal where
  | pnum : PRat → PVal
  | pstr : String → PVal
  | pnone : PVal
deriving DecidableEq, Repr

def digitVal (c : Char) : Nat := c.toNat - '0'.toNat

def digitsToNat (l : List Char) : Nat :=
  l.foldl (fun acc c => acc * 10 + digitVal c) 0

def allDigits (l : List Char) : Bool := l.all (fun c => c.isDigit)

/-- Python `int(s)` on a stripped decimal string: optional sign, digits. -/
def pyIntOfStr (s : String) : Option Int :=
  let l := (s.data.dropWhile (· = ' ')).reverse.dropWhile (· = ' ') |>.reverse
  match l with
  | [] => none
  | '-' :: ds => if ds ≠ [] ∧ allDigits ds then some (-(digitsToNat ds : Int)) else none
  | '+' :: ds => if ds ≠ [] ∧ allDigits ds then some ((digitsToNat ds : Int)) else none
  | ds => if allDigits ds then some ((digitsToNat ds : Int)) else none

/-- Python `float(s)` on a decimal string: sign, digits, optional fraction. -/
def pyFloatOfStr (s : String) : Option PRat :=
  let l := (s.data.dropWhile (· = ' ')).reverse.dropWhile (· = ' ') |>.reverse
  let core := fun (ds : List Char) =>
    match ds.span (· ≠ '.') with
    | (intPart, []) =>
      if intPart ≠ [] ∧ allDigits intPart then some (PRat.ofNat (digitsToNat intPart)) else none
    | (intPart, _dot :: fracPart) =>
      if (intPart ≠ [] ∨ fracPart ≠ []) ∧ allDigits intPart ∧ allDigits fracPart then
        some (PRat.ofNat (digitsToNat intPart) +
          (⟨Int.ofNat (digitsToNat fracPart), Int.ofNat (10 ^ fracPart.length)⟩ : PRat))
      else none
  match l with
  | '-' :: ds => (core ds).map (fun q => -q)
  | '+' :: ds => core ds
  | ds => core ds

/-- `float(v)` wrapped in `try/except: 0.0`, as in `choose_action`. -/
def pyFloatOr0 (v : PVal) : PRat :=
  match v with
  | .pnum q => q
  | .pstr s => (pyFloatOfStr s).getD 0
  | .pnone => 0

/-- Python truthiness of a scalar (`0`, `''`, `None` are falsy). -/
def pvTruthy (v : PVal) : Bool :=
  match v with
  | .pnum q => q.num ≠ 0
  | .pstr s => s ≠ ""
  | .pnone => false

/-- `int(v)` for the seed: numbers truncate toward zero, strings parse. -/
def pyToInt (v : PVal) : Option Int :=
  match v with
  | .pnum q => some (if (0 : PRat) ≤ q then q.floor else -((-q).floor))
  | .pstr s => pyIntOfStr s
  | .pnone => none

/-! ## `str.format` with keyword arguments

Only bare `{name}` fields appear in the generator's templates; a conversion or
format spec, a stray brace or a missing key makes the call fail (`none`),
which callers turn into the literal-template fallback. `{{`/`}}` escape. -/

inductive FTok where
  | lit : Char → FTok
  | fld : String → FTok
deriving DecidableEq, Repr

/-- Consume a `{name}` field body up to the closing brace. -/
def readFieldChars : List Char → Option (List Char × List Char)
  | [] => none
  | '}' :: rest => some ([], rest)
  | c :: rest =>
    if c = ':' ∨ c = '!' ∨ c = '{' then none
    else (readFieldChars rest).map (fun p => (c :: p.1, p.2))

/-- Tokenizer loop; every step consumes at least one character and one unit
of fuel, and the entry point supplies fuel equal to the template length, so
the out-of-fuel branch is never taken. -/
def fmtScanF : Nat → List Char → Option (List FTok)
  | 0, [] => some []
  | 0, _ :: _ => none
  | _ + 1, [] => some []
  | fuel + 1, '{' :: '{' :: rest => (fmtScanF fuel rest).map (FTok.lit '{' :: ·)
  | fuel + 1, '}' :: '}' :: rest => (fmtScanF fuel rest).map (FTok.lit '}' :: ·)
  | fuel + 1, '{' :: rest =>
    match readFieldChars rest with
    | none => none
    | some (name, rest') => (fmtScanF fuel rest').map (FTok.fld (String.mk name) :: ·)
  | _ + 1, '}' :: _ => none
  | fuel + 1, c :: rest => (fmtScanF fuel rest).map (FTok.lit c :: ·)

def fmtScan (cs : List Char) : Option (List FTok) := fmtScanF cs.length cs

def renderToks (m : List (String × String)) : List FTok → Option String
  | [] => some ""
  | FTok.lit c :: rest => (renderToks m rest).map (fun t => String.mk (c :: t.data))
  | FTok.fld n :: rest =>
    match alookup n m with
    | none => none
    | some v => (renderToks m rest).map (fun t => v ++ t)

/-- `tpl.format(**m)`; `none` models the exception callers catch. -/
def pyFormat (tpl : String) (m : List (String × String)) : Option String :=
  (fmtScan tpl.data).bind (renderToks m)

/-- Field names of `string.Formatter().parse(tpl)` (falsy names dropped);
`none` models the `ValueError` on a malformed template. -/
def pyFields (tpl : String) : Option (List String) :=
  (fmtScan tpl.data).map (fun ts =>
    (ts.filterMap (fun t => match t with | .fld n => some n | .lit _ => none)).filter (· ≠ ""))

/-! ## Data model

`Rule` is the rule dictionary built throughout `policy_simulator.py`; every
constructor in the source populates all seven keys.  The configuration is the
typed shape of `policy_settings.json` as the generator reads it: absent keys
are `none`/`[]`, numeric-typed entries are integers, weight-table values keep
their loose scalar type. -/

structure Rule where
  topic : String
  static : String
  dynamic : String
  filter : String
  hints : String
  action : String
  priority : Int
deriving DecidableEq, Repr

structure RangeCfg where
  rmin : Option Int
  rmax : Option Int
  rstep : Option Int
deriving DecidableEq, Repr

structure BasePolicy where
  topic_template : String
  expand_on : Option (List String)
  range : Option RangeCfg
  devices : Option (List String)
  static : Option String
  dynamic : Option String
  filter : Option String
  hints : Option String
  priority : Option Int
  action : Option String
  action_probabilities : Option (List (String × PVal))
deriving DecidableEq, Repr

structure Restriction where
  topic_template : Option String
  action : Option String
  priority : Option Int
  priority_offset_config : Option String
  floor : Option String
  devices : Option (List String)
  building_suffix : Option String
deriving DecidableEq, Repr

structure UserRec where
  userid : Int
  clientid : Option String
  username : Option String
  password : Option String
deriving DecidableEq, Repr

structure GenSettings where
  grouping_key : Option String
  distribution_strategy : Option String
deriving DecidableEq, Repr

structure Config where
  expansions : List (String × List String)
  base_policies : List BasePolicy
  alias_map : List (String × List String)
  action_probabilities : Option (List (String × PVal))
  users : List UserRec
  user_attributes : List (Int × String × String)
  role_priorities : List (String × Int)
  clearance_priority_multiplier : Option Int
  role_restrictions : List (String × List Restriction)
  device_capability_map : Option (List (String × List String))
  security_restriction_bonus : Option Int
  misc_ints : List (String × Int)
  generalization : Option GenSettings
  max_policies : Option Int
  seed : Option PVal
deriving DecidableEq, Repr

def emptyCfg : Config :=
  ⟨[], [], [], none, [], [], [], none, [], none, none, [], none, none, none⟩

/-- The view of a policy dict that `choose_action` reads (`.get` on the two
keys); literal dicts like `{'action': 'deny'}` have no weight table. -/
structure ActPolicy where
  action_probabilities : Option (List (String × PVal))
  action : Option String
deriving DecidableEq, Repr

def BasePolicy.toActPolicy (p : BasePolicy) : ActPolicy :=
  ⟨p.action_probabilities, p.action⟩

def fixedActPolicy (a : String) : ActPolicy := ⟨none, some a⟩

/-! ## Action Resolver (`choose_action`, lines 23-46) -/

/-- `policy.get('action_probabilities') or cfg.get('action_probabilities') or {}`:
falsy (absent or empty) tables fall through. -/
def effProbs (p : ActPolicy) (cfg : Config) : List (String × PVal) :=
  match p.action_probabilities with
  | some (x :: xs) => x :: xs
  | _ =>
    match cfg.action_probabilities with
    | some (y :: ys) => y :: ys
    | _ => []

/-- The `for k, v in probs.items()` filter: keep positive numeric weights. -/
def positiveItems (probs : List (String × PVal)) : List (String × PRat) :=
  probs.foldl (fun acc kv =>
    let vv := pyFloatOr0 kv.2
    if vv ≤ 0 then acc else acc ++ [(kv.1, vv)]) []

/-- The cumulative scan `cum += vv; if r <= cum: return k`, falling back to
`items[-1][0]`. -/
def scanCum (items : List (String × PRat)) (lastK : String) (r acc : PRat) : String :=
  match items with
  | [] => lastK
  | (k, vv) :: rest => if r ≤ acc + vv then k else scanCum rest lastK r (acc + vv)

def choose_action (p : ActPolicy) (cfg : Config) (s : RngState) : String × RngState :=
  match effProbs p cfg with
  | [] => (p.action.getD "deny", s)
  | probs =>
    match positiveItems probs with
    | [] => (p.action.getD "deny", s)
    | i :: is_ =>
      let total := ((i :: is_).map (·.2)).foldl (· + ·) (0 : PRat)
      let (q, s') := randFloat s
      (scanCum (i :: is_) ((i :: is_).getLastD i).1 (q * total) 0, s')

/-! ## Topic normalization (lines 133-138 and elsewhere)

One `replace('//', '/')` pass, `strip('/')`, and the empty topic becomes the
catch-all wildcard. -/

def normTopic (t : String) : String :=
  let t2 := pyStrip '/' (String.mk (collapseDS t.data))
  if t2 = "" then "#" else t2

/-! ## Template Expander (`expand_base_policies`, lines 48-178) -/

/-- Python `range(start, stop, step)` as a list. -/
def pyRangeLen (start stop step : Int) : Nat :=
  if 0 < step then (if start < stop then ((stop - start + step - 1) / step).toNat else 0)
  else if step < 0 then (if stop < start then ((start - stop - step - 1) / (-step)).toNat else 0)
  else 0

def pyRange (start stop step : Int) : List Int :=
  (List.range (pyRangeLen start stop step)).map (fun i => start + step * i)

/-- The sequential `static/dynamic/filter` formatting inside one `try` block:
a failure keeps the already-rebound earlier values and the untouched rest. -/
def substRange (v : Int) (st dy fl : String) : String × String × String :=
  let m := [("v", toString v), ("v_plus", toString (v + 1))]
  match pyFormat st m with
  | none => (st, dy, fl)
  | some st2 =>
    match pyFormat dy m with
    | none => (st2, dy, fl)
    | some dy2 =>
      match pyFormat fl m with
      | none => (st2, dy2, fl)
      | some fl2 => (st2, dy2, fl2)

/-- One range step (the body of `for v in range(...)`). -/
def rangeStep (p : BasePolicy) (cfg : Config) (topic : String)
    (acc : List Rule × RngState) (v : Int) : List Rule × RngState :=
  let (st, dy, fl) := substRange v (p.static.getD "") (p.dynamic.getD "") (p.filter.getD "")
  let (action, s') := choose_action p.toActPolicy cfg acc.2
  (acc.1 ++ [⟨topic, st, dy, fl, p.hints.getD "", action, p.priority.getD 0⟩], s')

/-- Emit the rules for one topic: one per range step, or a single rule when no
range is configured (both branches of lines 60-97 / 140-177). -/
def rangeRules (p : BasePolicy) (cfg : Config) (topic : String) (s : RngState) :
    List Rule × RngState :=
  match p.range with
  | some rc =>
    let rmin := rc.rmin.getD 0
    let rmax := rc.rmax.getD 0
    let st0 := rc.rstep.getD 1
    let step := if st0 = 0 then 1 else st0
    (pyRange rmin (rmax + 1) step).foldl (rangeStep p cfg topic) ([], s)
  | none =>
    let (action, s') := choose_action p.toActPolicy cfg s
    ([⟨topic, p.static.getD "", p.dynamic.getD "", p.filter.getD "",
       p.hints.getD "", action, p.priority.getD 0⟩], s')

/-- Value list for one expansion dimension (lines 104-112): device dimensions
read the policy's `devices` falling back to the configured `device_types`;
empty lists become a single empty string. -/
def dimVals (p : BasePolicy) (ex : List (String × List String)) (d : String) : List String :=
  let vals :=
    if d = "devices" ∨ d = "device_types" then
      match p.devices with
      | some (v :: vs) => v :: vs
      | _ =>
        match alookup "device_types" ex with
        | some (w :: ws) => w :: ws
        | _ => []
    else
      match alookup d ex with
      | some (v :: vs) => v :: vs
      | _ => []
  if vals = [] then [""] else vals

/-- `itertools.product`, first dimension outermost. -/
def listProd : List (List String) → List (List String)
  | [] => [[]]
  | l :: ls => l.flatMap (fun x => (listProd ls).map (x :: ·))

/-- Lines 120-125 (and 281-288, 372-379): copy each expansion key's value to
its configured aliases, reading the mapping as it is updated. -/
def applyAliases (cfg : Config) (m0 : List (String × String)) : List (String × String) :=
  cfg.alias_map.foldl
    (fun m da =>
      match alookup da.1 m with
      | none => m
      | some _ =>
        da.2.foldl (fun m2 al => dictSet m2 al ((alookup da.1 m2).getD "")) m)
    m0

/-- Mapping for one combination in `expand_base_policies` (lines 116-127). -/
def comboMapping (cfg : Config) (dims combo : List String) : List (String × String) :=
  let m0 := (dims.zip combo).foldl (fun m kv => dictSet m kv.1 kv.2) []
  let m1 := applyAliases cfg m0
  if (alookup "dev" m1).isSome then m1 else m1 ++ [("dev", "")]

/-- One dimension-combination step of the expansion loop (lines 115-177). -/
def comboStep (cfg : Config) (p : BasePolicy) (dims : List String)
    (acc : List Rule × RngState) (combo : List String) : List Rule × RngState :=
  let m := comboMapping cfg dims combo
  let topic := normTopic ((pyFormat p.topic_template m).getD p.topic_template)
  let (rs, s') := rangeRules p cfg topic acc.2
  (acc.1 ++ rs, s')

def expandOnePolicy (cfg : Config) (p : BasePolicy) (s : RngState) :
    List Rule × RngState :=
  match p.expand_on with
  | none => rangeRules p cfg p.topic_template s
  | some [] => rangeRules p cfg p.topic_template s
  | some (d :: ds) =>
    let dims := d :: ds
    let dvls := dims.map (dimVals p cfg.expansions)
    (listProd dvls).foldl (comboStep cfg p dims) ([], s)

def expand_base_policies (cfg : Config) (s : RngState) : List Rule × RngState :=
  cfg.base_policies.foldl
    (fun (acc : List Rule × RngState) p =>
      let (rs, s') := expandOnePolicy cfg p acc.2
      (acc.1 ++ rs, s'))
    ([], s)

/-! ## Attribute Rule Deriver (`generate_user_attribute_rules`, lines 181-455) -/

/-- The single-quote character, used in generated predicate strings. -/
def sqs : String := "\x27"

/-- `_vals(key, override)` (lines 184-188). -/
def uaVals (ex : List (String × List String)) (key : String) (override : Option String) :
    List String :=
  match override with
  | some o => [o]
  | none =>
    match alookup key ex with
    | some (v :: vs) => v :: vs
    | _ => [""]

/-- Default `device_capability_map` (lines 191-196). -/
def defaultDeviceMap : List (String × List String) :=
  [("video", ["cam"]), ("alarm", ["proximity"]), ("facilities", ["tstat", "thermostat"])]

/-- `uid_to_user` (lines 199-201): later user records overwrite earlier ones. -/
def buildUidToUser (users : List UserRec) : List (Int × Option String) :=
  users.foldl (fun m u => dictSet m u.userid u.username) []

/-- `user_attrs` (lines 204-206): attributes grouped per user id, insertion
ordered, later values for the same name overwriting. -/
def buildUserAttrs (triples : List (Int × String × String)) :
    List (Int × List (String × String)) :=
  triples.foldl
    (fun m t =>
      match alookup t.1 m with
      | none => m ++ [(t.1, [(t.2.1, t.2.2)])]
      | some attrs => dictSet m t.1 (dictSet attrs t.2.1 t.2.2))
    []

/-- `int(attrs.get('clearance', '#0').replace('#', '') or 0)` (line 219);
`none` is the uncaught `ValueError`. -/
def clearanceOf (attrs : List (String × String)) : Option Int :=
  let strp := removeHash ((alookup "clearance" attrs).getD "#0")
  if strp = "" then some 0 else pyIntOfStr strp

/-- Lines 291-294: legacy `dev` fallback from device dimension values. -/
def devCompat (m : List (String × String)) : List (String × String) :=
  let m1 :=
    match alookup "device_types" m with
    | some v => if (alookup "dev" m).isSome then m else m ++ [("dev", v)]
    | none => m
  match alookup "devices" m1 with
  | some v => if (alookup "dev" m1).isSome then m1 else m1 ++ [("dev", v)]
  | none => m1

/-- One combination of one restriction (lines 275-318). -/
def restrictionComboRule (cfg : Config) (username : String) (prio : Int)
    (tpl actionName : String) (bSuffix : Option String)
    (expandKeys combo : List String) (s : RngState) : List Rule × RngState :=
  let m0 := (expandKeys.zip combo).foldl (fun m kv => dictSet m kv.1 kv.2) []
  let m1 := applyAliases cfg m0
  let m := devCompat m1
  let bval := (alookup "b" m).getD ""
  match bSuffix with
  | some suf =>
    if pyEnds suf bval then
      let topic := normTopic ((pyFormat tpl m).getD tpl)
      let (action, s') := choose_action (fixedActPolicy actionName) cfg s
      ([⟨topic, "subj.username==" ++ sqs ++ username ++ sqs, "", "", "subj", action, prio⟩], s')
    else ([], s)
  | none =>
    let topic := normTopic ((pyFormat tpl m).getD tpl)
    let (action, s') := choose_action (fixedActPolicy actionName) cfg s
    ([⟨topic, "subj.username==" ++ sqs ++ username ++ sqs, "", "", "subj", action, prio⟩], s')

/-- One restriction definition (lines 230-318).  A malformed topic template
makes `Formatter().parse` raise, hence `Except`. -/
def restrictionRules (cfg : Config) (username : String) (basePriority : Int)
    (rdef : Restriction) (s : RngState) : Except String (List Rule × RngState) :=
  let tpl := rdef.topic_template.getD "{b}/#"
  let actionName := rdef.action.getD "deny"
  let off0 := rdef.priority.getD 0
  let off :=
    match rdef.priority_offset_config with
    | none => off0
    | some nm => off0 + (alookup nm cfg.misc_ints).getD 0
  match pyFields tpl with
  | none => .error "ValueError: malformed restriction topic template"
  | some fields =>
    let expandKeys :=
      cfg.alias_map.foldl
        (fun acc da =>
          if da.1 ∈ fields ∨ da.2.any (· ∈ fields) then acc ++ [da.1] else acc) []
    let dimLists :=
      expandKeys.map (fun key =>
        let vals :=
          if key = "floors" ∧ rdef.floor.isSome then [rdef.floor.getD ""]
          else if key = "devices" ∨ key = "device_types" then
            match rdef.devices with
            | some (v :: vs) => v :: vs
            | _ =>
              match alookup "device_types" cfg.expansions with
              | some (w :: ws) => w :: ws
              | _ => []
          else (alookup key cfg.expansions).getD []
        if vals = [] then [""] else vals)
    .ok ((listProd dimLists).foldl
      (fun (acc : List Rule × RngState) combo =>
        let (rs, s') := restrictionComboRule cfg username (basePriority + off)
          tpl actionName rdef.building_suffix expandKeys combo acc.2
        (acc.1 ++ rs, s'))
      ([], s))

/-- The hardcoded intern fallback (lines 320-348). -/
def internRules (cfg : Config) (username : String) (basePriority : Int) (s : RngState) :
    List Rule × RngState :=
  (uaVals cfg.expansions "buildings" none).foldl
    (fun (acc : List Rule × RngState) b =>
      if b = "" then acc
      else
        let (acc1, s1) :=
          if pyEnds "2" b then
            let (action, s') := choose_action (fixedActPolicy "deny") cfg acc.2
            (acc.1 ++ [⟨b ++ "/#", "subj.username==" ++ sqs ++ username ++ sqs, "", "",
              "subj", action, basePriority + cfg.security_restriction_bonus.getD 5⟩], s')
          else (acc.1, acc.2)
        let (action2, s2) := choose_action (fixedActPolicy "deny") cfg s1
        (acc1 ++ [⟨b ++ "/f3/#", "subj.username==" ++ sqs ++ username ++ sqs, "", "",
          "subj", action2, 1⟩], s2))
    ([], s)

/-- The capability topic of lines 383-391 / 436-443: the fixed template, with
a manual join fallback when a placeholder is missing. -/
def capTopic (m : List (String × String)) (dev : String) : String :=
  let raw :=
    match pyFormat "{b}/{fl}/{r}/{dev}/#" m with
    | some t => t
    | none =>
      String.intercalate "/"
        ([(alookup "b" m).getD "", (alookup "fl" m).getD "",
          (alookup "r" m).getD "", dev].filter (· ≠ "")) ++ "/#"
  normTopic raw

/-- Spatial expansion keys (lines 356, 408). -/
def capSpatialKeys (ex : List (String × List String)) : List String :=
  (ex.map (·.1)).filter (fun k => k ≠ "devices" ∧ k ≠ "device_types")

/-- Shared shape of the two capability loops (lines 351-401 and 404-453):
for every flagged attribute, device, and spatial combination emit one rule
with the supplied static predicate and priority. -/
def capRulesWith (cfg : Config) (devMap : List (String × List String))
    (attrs : List (String × String)) (mkStatic : String → String)
    (mkPrio : Int) (s : RngState) : List Rule × RngState :=
  attrs.foldl
    (fun (acc : List Rule × RngState) av =>
      if pyStarts "?" av.2 ∧ pyIn "true" av.2 then
        let devs := (alookup av.1 devMap).getD []
        let spatialKeys := capSpatialKeys cfg.expansions
        devs.foldl
          (fun (acc2 : List Rule × RngState) dev =>
            let dimLists := spatialKeys.map (fun key => uaVals cfg.expansions key none)
            (listProd dimLists).foldl
              (fun (acc3 : List Rule × RngState) combo =>
                let m0 := (spatialKeys.zip combo).foldl (fun m kv => dictSet m kv.1 kv.2) []
                let m1 := applyAliases cfg m0
                let m := dictSet m1 "dev" dev
                let topic := capTopic m dev
                let (action, s') := choose_action (fixedActPolicy "grant") cfg acc3.2
                (acc3.1 ++ [⟨topic, mkStatic av.1, "", "", "subj", action, mkPrio⟩], s'))
              acc2)
          acc
      else acc)
    ([], s)

/-- Processing of one `(uid, attrs)` entry of `user_attrs` (lines 210-453). -/
def processUser (cfg : Config) (u2u : List (Int × Option String))
    (devMap : List (String × List String)) (uid : Int)
    (attrs : List (String × String)) (s : RngState) :
    Except String (List Rule × RngState) :=
  match alookup uid u2u with
  | none => .ok ([], s)
  | some uopt =>
    match uopt with
    | none => .ok ([], s)
    | some username =>
      if username = "" then .ok ([], s)
      else
        let role := (alookup "role" attrs).getD ""
        let basePr0 := (alookup role cfg.role_priorities).getD 1
        match clearanceOf attrs with
        | none => .error "ValueError: invalid literal for int() with base 10"
        | some cl =>
          let basePr := basePr0 + cl * (cfg.clearance_priority_multiplier.getD 2)
          let restrictions := (alookup role cfg.role_restrictions).getD []
          let step1 : Except String (List Rule × RngState) :=
            match restrictions with
            | [] =>
              if role = "intern" then .ok (internRules cfg username basePr s)
              else .ok ([], s)
            | _ :: _ =>
              restrictions.foldl
                (fun acc rdef =>
                  match acc with
                  | .error e => .error e
                  | .ok (rs, s1) =>
                    match restrictionRules cfg username basePr rdef s1 with
                    | .error e => .error e
                    | .ok (rs2, s2) => .ok (rs ++ rs2, s2))
                (.ok ([], s))
          match step1 with
          | .error e => .error e
          | .ok (rules1, s1) =>
            let (rules2, s2) := capRulesWith cfg devMap attrs
              (fun _ => "subj.username==" ++ sqs ++ username ++ sqs) basePr s1
            let (rules3, s3) := capRulesWith cfg devMap attrs
              (fun aname => "subj." ++ aname ++ " ?? false") 5 s2
            .ok (rules1 ++ rules2 ++ rules3, s3)

def guaGo (cfg : Config) (u2u : List (Int × Option String))
    (devMap : List (String × List String)) :
    List (Int × List (String × String)) → RngState → Except String (List Rule × RngState)
  | [], s => .ok ([], s)
  | (uid, attrs) :: rest, s =>
    match processUser cfg u2u devMap uid attrs s with
    | .error e => .error e
    | .ok (r1, s1) =>
      match guaGo cfg u2u devMap rest s1 with
      | .error e => .error e
      | .ok (r2, s2) => .ok (r1 ++ r2, s2)

def generate_user_attribute_rules (cfg : Config) (s : RngState) :
    Except String (List Rule × RngState) :=
  guaGo cfg (buildUidToUser cfg.users) (cfg.device_capability_map.getD defaultDeviceMap)
    (buildUserAttrs cfg.user_attributes) s

/-! ## Deduplicator / Conflict Resolver (lines 560-607) -/

abbrev Key4 := String × String × String × Int

abbrev Key5 := String × String × String × Int × String

def key4 (r : Rule) : Key4 := (r.topic, r.static, r.dynamic, r.priority)

def key5 (r : Rule) : Key5 := (r.topic, r.static, r.dynamic, r.priority, r.action)

/-- `(r.get('action') or 'deny').lower()`. -/
def actKey (a : String) : String := pyLower (if a = "" then "deny" else a)

structure Group where
  rep : Rule
  counts : List (String × Nat)
deriving DecidableEq, Repr

/-- `counts[act] = counts.get(act, 0) + 1`. -/
def bumpCount (counts : List (String × Nat)) (a : String) : List (String × Nat) :=
  match alookup a counts with
  | none => counts ++ [(a, 1)]
  | some c => dictSet counts a (c + 1)

def groupStep (m : List (Key4 × Group)) (r : Rule) : List (Key4 × Group) :=
  match alookup (key4 r) m with
  | none => m ++ [(key4 r, ⟨r, [(actKey r.action, 1)]⟩)]
  | some g =>
    let counts := bumpCount g.counts (actKey r.action)
    let rep := if g.rep.priority < r.priority then r else g.rep
    dictSet m (key4 r) ⟨rep, counts⟩

/-- Aggregation by identity key (lines 577-597). -/
def groupRules (rules : List Rule) : List (Key4 × Group) :=
  rules.foldl groupStep []

/-- `random.choices` with cumulative weights and a right-bisect capped at the
last index. -/
def chooseByCum : List (String × PRat) → PRat → PRat → String
  | [], _, _ => "deny"
  | [(a, _)], _, _ => a
  | (a, w) :: rest, t, acc => if t < acc + w then a else chooseByCum rest t (acc + w)

/-- `_pick_action_weighted(candidates)` (lines 561-575), on a list that is
non-empty by construction at every call site. -/
def pickWeighted (cfg : Config) (c : String) (cs : List String) (s : RngState) :
    String × RngState :=
  let probs := cfg.action_probabilities.getD []
  let weights := (c :: cs).map (fun a =>
    match alookup a probs with
    | none => (0 : PRat)
    | some v => if pvTruthy v then pyFloatOr0 v else 0)
  let total := weights.foldl (· + ·) (0 : PRat)
  if total ≤ 0 then randChoice c cs s
  else
    let (q, s') := randFloat s
    (chooseByCum ((c :: cs).zip weights) (q * total) 0, s')

/-- Majority selection for one group (lines 602-606). -/
def resolveGroupAction (cfg : Config) (counts : List (String × Nat))
    (fallback : String) (s : RngState) : String × RngState :=
  let maxc := (counts.map (·.2)).foldl Nat.max 0
  let cands := (counts.filter (·.2 = maxc)).map (·.1)
  match cands with
  | [] => (if fallback = "" then "deny" else fallback, s)
  | c :: cs => pickWeighted cfg c cs s

def finalizeGo (cfg : Config) : List (Key4 × Group) → RngState → List Rule × RngState
  | [], s => ([], s)
  | (_, g) :: rest, s =>
    let (act, s1) := resolveGroupAction cfg g.counts g.rep.action s
    let (out, s2) := finalizeGo cfg rest s1
    ({ g.rep with action := act } :: out, s2)

/-! ## Generalizer / Reducer (lines 609-821) -/

abbrev PKey := String × String × Int

def tkey (r : Rule) : PKey := (r.topic, r.static, r.priority)

structure Item where
  rule : Rule
  specificity : Nat
  count : Nat
  counts : List (String × Nat)
deriving DecidableEq, Repr

/-- The descending generalization chain for a topic with at least four
segments (lines 622-643); `none` for shorter topics. -/
def patternsOf (topic : String) : Option (List (String × Nat)) :=
  let parts := pySplit '/' topic
  if parts.length ≥ 4 then
    let building := parts.headD ""
    let floor := (parts.get? 1).getD ""
    let lastp := parts.getLastD ""
    let dp := if chContains '#' lastp then pyStrip '/' (hashHead lastp) ++ "#" else lastp
    some
      [ (building ++ "/" ++ floor ++ "/+/" ++ dp, 3),
        (building ++ "/+/+/" ++ dp, 2),
        ("+/+/+/" ++ dp, 1),
        ("#", 0) ]
  else none

/-- Insert one `(pattern, specificity)` for one rule (lines 646-679). -/
def bpInsert (m : List (PKey × Item)) (pattern : String) (spec : Nat) (r : Rule) :
    List (PKey × Item) :=
  match alookup ((pattern, r.static, r.priority) : PKey) m with
  | none =>
    m ++ [(((pattern, r.static, r.priority) : PKey),
      ⟨{ r with topic := pattern }, spec, 1, [(actKey r.action, 1)]⟩)]
  | some it =>
    dictSet m ((pattern, r.static, r.priority) : PKey)
      (if it.rule.priority < r.priority then
        ⟨{ r with topic := pattern }, it.specificity, it.count + 1,
          bumpCount it.counts (pyLower r.action)⟩
      else
        ⟨it.rule, it.specificity, it.count + 1, bumpCount it.counts (pyLower r.action)⟩)

/-- Insert a short-topic rule as-is at specificity 4 (lines 681-696). -/
def bpInsertShort (m : List (PKey × Item)) (r : Rule) : List (PKey × Item) :=
  match alookup ((r.topic, r.static, r.priority) : PKey) m with
  | none => m ++ [(((r.topic, r.static, r.priority) : PKey), ⟨r, 4, 1, [(actKey r.action, 1)]⟩)]
  | some it =>
    dictSet m ((r.topic, r.static, r.priority) : PKey)
      (if it.rule.priority < r.priority then
        ⟨r, it.specificity, it.count + 1, bumpCount it.counts (pyLower r.action)⟩
      else
        ⟨it.rule, it.specificity, it.count + 1, bumpCount it.counts (pyLower r.action)⟩)

def buildByPattern (uniq : List Rule) : List (PKey × Item) :=
  uniq.foldl
    (fun m r =>
      match patternsOf r.topic with
      | some pats => pats.foldl (fun m2 ps => bpInsert m2 ps.1 ps.2 r) m
      | none => bpInsertShort m r)
    []

/-- Per-entry majority vote over the pattern tallies (lines 704-709). -/
def bpResolveItem (cfg : Config) (it : Item) (s : RngState) : Item × RngState :=
  match it.counts with
  | [] => (it, s)
  | c :: cs =>
    match (((c :: cs)).filter (·.2 = (((c :: cs)).map (·.2)).foldl Nat.max 0)).map (·.1) with
    | [] => (it, s)
    | a :: as_ =>
      let (act, s') := pickWeighted cfg a as_ s
      ({ it with rule := { it.rule with action := act } }, s')

def bpResolveGo (cfg : Config) : List (PKey × Item) → RngState →
    List (PKey × Item) × RngState
  | [], s => ([], s)
  | (k, it) :: rest, s =>
    let (it', s1) := bpResolveItem cfg it s
    let (rest', s2) := bpResolveGo cfg rest s1
    ((k, it') :: rest', s2)

/-- Grouping key per rule (lines 714-728). -/
def groupKeyOf (gkey : String) (r : Rule) : String :=
  if gkey = "static" then
    (if r.static ≠ "" then r.static else if r.hints ≠ "" then r.hints else "#")
  else if gkey = "hints" then
    (if r.hints ≠ "" then r.hints else if r.static ≠ "" then r.static else "#")
  else if gkey = "device" then
    let parts := pySplit '/' r.topic
    match parts with
    | [] => "#"
    | _ => if parts.length > 3 then (parts.get? 3).getD "" else parts.getLastD ""
  else
    (if r.static ≠ "" then r.static else if r.hints ≠ "" then r.hints else "#")

def buildGroups (gkey : String) (items : List Item) : List (String × List Item) :=
  items.foldl (fun gs it => gAppend gs (groupKeyOf gkey it.rule) it) []

/-- Ranking `(-priority, -specificity, -count)`; strict for a stable insertion
sort whose result matches the stable Python sort. -/
def rankLt (a b : Item) : Bool :=
  decide (b.rule.priority < a.rule.priority) ||
    (decide (a.rule.priority = b.rule.priority) &&
      (decide (b.specificity < a.specificity) ||
        (decide (a.specificity = b.specificity) && decide (b.count < a.count))))

def sinsert {α : Type} (lt : α → α → Bool) (x : α) : List α → List α
  | [] => [x]
  | y :: ys => if lt y x then y :: sinsert lt x ys else x :: y :: ys

/-- Stable sort: an element is placed before the first element it does not
strictly follow, so equal-rank elements keep their original order. -/
def ssort {α : Type} (lt : α → α → Bool) (l : List α) : List α :=
  l.foldr (sinsert lt) []

def sortGroups (gs : List (String × List Item)) : List (String × List Item) :=
  gs.map (fun kb => (kb.1, ssort rankLt kb.2))

/-- Python list slicing `l[:n]` with an integer bound. -/
def pyTake {α : Type} (n : Int) (l : List α) : List α :=
  if 0 ≤ n then l.take n.toNat else l.take ((l.length : Int) + n).toNat

/-- The `round_robin` deque loop (lines 740-752), also reused inside
`priority_buckets`.  `fuel` dominates the loop measure; every invocation
passes enough for the loop to run to completion. -/
def rrGo (maxP : Int) : Nat → List String → List (String × List Item) → List Rule →
    List Rule
  | 0, _, _, sel => sel
  | _ + 1, [], _, sel => sel
  | fuel + 1, k :: qrest, gs, sel =>
    if (sel.length : Int) < maxP then
      match alookup k gs with
      | none => rrGo maxP fuel qrest gs sel
      | some [] => rrGo maxP fuel qrest gs sel
      | some (it :: rest) =>
        let gs' := dictSet gs k rest
        let queue' := if rest.isEmpty then qrest else qrest ++ [k]
        rrGo maxP fuel queue' gs' (sel ++ [it.rule])
    else sel

def gsSize (gs : List (String × List Item)) : Nat :=
  (gs.map (fun kb => kb.2.length)).sum

def roundRobinSelect (gs : List (String × List Item)) (maxP : Int) : List Rule :=
  let order := ssort
    (fun a b => decide (((alookup b gs).getD []).foldl (fun t i => t + i.rule.priority) 0 <
      ((alookup a gs).getD []).foldl (fun t i => t + i.rule.priority) 0))
    (gs.map (·.1))
  rrGo maxP (gsSize gs + order.length + 1) order gs []

/-- `int(round(x))` with round-half-to-even. -/
def pyRound (q : PRat) : Int :=
  let f := q.floor
  let r := q - PRat.ofInt f
  if r < (⟨1, 2⟩ : PRat) then f
  else if (⟨1, 2⟩ : PRat) < r then f + 1
  else if f % 2 = 0 then f else f + 1

/-- Phase one of `proportional` (lines 769-775): per-group quota, popped from
the bucket front under the budget guard. -/
def takeLoop (maxP : Int) : Nat → List Item → List Rule → List Rule × List Item
  | 0, bucket, sel => (sel, bucket)
  | n + 1, bucket, sel =>
    if (sel.length : Int) ≥ maxP then (sel, bucket)
    else
      match bucket with
      | [] => (sel, bucket)
      | it :: rest => takeLoop maxP n rest (sel ++ [it.rule])

def propPhase1 (maxP : Int) : List (String × Int) → List (String × List Item) →
    List Rule → List Rule × List (String × List Item)
  | [], gs, sel => (sel, gs)
  | (k, share) :: rest, gs, sel =>
    match alookup k gs with
    | none => propPhase1 maxP rest gs sel
    | some bucket =>
      match takeLoop maxP (min (bucket.length : Int) share).toNat bucket sel with
      | (sel2, b2) => propPhase1 maxP rest (dictSet gs k b2) sel2

def fillLoop (maxP : Int) : List Item → List Rule → List Rule
  | [], sel => sel
  | it :: rest, sel =>
    if (sel.length : Int) < maxP then fillLoop maxP rest (sel ++ [it.rule]) else sel

/-- The per-group quota of `proportional` (lines 756-766), computed from the
groups before any bucket is popped. -/
def propAlloc (gs : List (String × List Item)) (maxP : Int) : List (String × Int) :=
  let sizes := gs.map (fun kb => (kb.1, (kb.2.map (·.count)).sum))
  let totalCount0 := (sizes.map (·.2)).sum
  let totalCount := if totalCount0 ≤ 0 then gsSize gs else totalCount0
  sizes.map (fun ks =>
    (ks.1,
      if 0 < totalCount then
        max 1 (pyRound ((PRat.ofNat ks.2 / PRat.ofNat totalCount) * PRat.ofInt maxP))
      else 0))

def propSelect (gs : List (String × List Item)) (maxP : Int) : List Rule :=
  let (sel1, gs1) := propPhase1 maxP (propAlloc gs maxP) gs []
  let remaining := gs1.foldl (fun acc kb => acc ++ kb.2) []
  fillLoop maxP (ssort rankLt remaining) sel1

/-- `priority_buckets` (lines 787-810). -/
def pmInsert (pm : List (Int × List (String × List Item))) (p : Int) (k : String)
    (it : Item) : List (Int × List (String × List Item)) :=
  match alookup p pm with
  | none => pm ++ [(p, [(k, [it])])]
  | some sub => dictSet pm p (gAppend sub k it)

def buildPrioMap (gs : List (String × List Item)) :
    List (Int × List (String × List Item)) :=
  gs.foldl
    (fun pm kb => kb.2.foldl (fun pm2 it => pmInsert pm2 it.rule.priority kb.1 it) pm)
    []

def pbGo (pm : List (Int × List (String × List Item))) (maxP : Int) :
    List Int → List Rule → List Rule
  | [], sel => sel
  | p :: ps, sel =>
    let sub := (alookup p pm).getD []
    let sel' := rrGo maxP (gsSize sub + sub.length + 1) (sub.map (·.1)) sub sel
    if (sel'.length : Int) ≥ maxP then sel' else pbGo pm maxP ps sel'

def prioBucketsSelect (gs : List (String × List Item)) (maxP : Int) : List Rule :=
  let pm := buildPrioMap gs
  pbGo pm maxP (ssort (fun a b => decide (b < a)) (pm.map (·.1))) []

/-- The default fallback strategy (lines 812-819). -/
def defaultSelect (gs : List (String × List Item)) (maxP : Int) : List Rule :=
  (pyTake maxP (ssort rankLt (gs.foldl (fun acc kb => acc ++ kb.2) []))).map (·.rule)

def genGroupingKey (cfg : Config) : String :=
  ((cfg.generalization.getD ⟨none, none⟩).grouping_key).getD "static"

def genDistribution (cfg : Config) : String :=
  ((cfg.generalization.getD ⟨none, none⟩).distribution_strategy).getD "proportional"

/-- The whole reduction phase (lines 611-821), entered only when the unique
count exceeds a positive budget. -/
def reduceSelect (cfg : Config) (maxP : Int) (uniq : List Rule) (s : RngState) :
    List Rule × RngState :=
  let bp := buildByPattern uniq
  let (bp', s1) := bpResolveGo cfg bp s
  let items := bp'.map (·.2)
  let gs := sortGroups (buildGroups (genGroupingKey cfg) items)
  let dist := genDistribution cfg
  let sel :=
    if dist = "round_robin" then roundRobinSelect gs maxP
    else if dist = "proportional" then propSelect gs maxP
    else if dist = "priority_buckets" then prioBucketsSelect gs maxP
    else defaultSelect gs maxP
  (sel, s1)

/-! ## Backfill (lines 823-853) -/

def backfillGo (maxP : Int) : List (Nat × Rule) → List Rule → List Key5 → List Rule
  | [], uniq, _ => uniq
  | (_, cand) :: rest, uniq, existing =>
    if (uniq.length : Int) ≥ maxP then uniq
    else if key5 cand ∈ existing then backfillGo maxP rest uniq existing
    else backfillGo maxP rest (uniq ++ [cand]) (existing ++ [key5 cand])

def candLt (a b : Nat × Rule) : Bool :=
  decide (b.1 < a.1) || (decide (a.1 = b.1) && decide (b.2.priority < a.2.priority))

def allCandidates (grouped : List (Key4 × Group)) : List (Nat × Rule) :=
  grouped.foldl
    (fun acc kg => acc ++ kg.2.counts.map (fun ac => (ac.2, { kg.2.rep with action := ac.1 })))
    []

def backfill (maxP : Int) (grouped : List (Key4 × Group)) (uniq : List Rule) :
    List Rule :=
  if maxP > 0 ∧ (uniq.length : Int) < maxP then
    let existing := uniq.map key5
    let cands := (allCandidates grouped).filter (fun c => key5 c.2 ∉ existing)
    backfillGo maxP (ssort candLt cands) uniq existing
  else uniq

/-! ## The pipeline tail of `main` (lines 560-853): dedup, conditional
reduction, backfill. -/

def pipelineTail (cfg : Config) (maxP : Int) (rules : List Rule) (s : RngState) :
    List Rule × RngState :=
  let grouped := groupRules rules
  let (uniq, s1) := finalizeGo cfg grouped s
  let (uniq2, s2) :=
    if maxP > 0 ∧ (uniq.length : Int) > maxP then reduceSelect cfg maxP uniq s1
    else (uniq, s1)
  (backfill maxP grouped uniq2, s2)

/-! ## Serialization sink (`write_sql`, lines 457-537) -/

def sqc : Char := Char.ofNat 39

def escape_sql (s : String) : String :=
  String.mk (s.data.foldr (fun c acc => if c = sqc then sqc :: sqc :: acc else c :: acc) [])

def format_value (v : String) : String := sqs ++ escape_sql v ++ sqs

def sqlHeader : String :=
  "create database if not exists peaauth;\n" ++
  "use peaauth;\n\n" ++
  "create table users (\n" ++
  "\tuserid\tint auto_increment primary key,\n" ++
  "\tclientid \tvarchar(64),\n" ++
  "\tusername\tvarchar(64),\n" ++
  "\tpassword\tvarchar(64)\n" ++
  ");\n\n" ++
  "create table user_attributes (\n" ++
  "\tuserid\tint,\n" ++
  "\tname\tvarchar(64),\n" ++
  "\tval\tvarchar(255),\n" ++
  "\tforeign key (userid) references users(userid) on delete cascade\n" ++
  ");\n\n"

def rulesTableDDL : String :=
  "create table rules (\n" ++
  "\truleid int auto_increment primary key,\n" ++
  "\ttopic varchar(1024),\n" ++
  "\tstatic varchar(4096),\n" ++
  "\tdynamic varchar(4096),\n" ++
  "\tfilter varchar(4096),\n" ++
  "\thints set(" ++ sqs ++ "subj" ++ sqs ++ "," ++ sqs ++ "obj" ++ sqs ++ "," ++
    sqs ++ "ctx" ++ sqs ++ "," ++ sqs ++ "payload" ++ sqs ++ "," ++ sqs ++ "json" ++
    sqs ++ "," ++ sqs ++ "dsubj" ++ sqs ++ "),\n" ++
  "\taction enum(" ++ sqs ++ "filter" ++ sqs ++ ", " ++ sqs ++ "grant" ++ sqs ++
    ", " ++ sqs ++ "deny" ++ sqs ++ "),\n" ++
  "\tpriority int\n" ++
  ");\n\n"

def userRow (u : UserRec) : String :=
  "(" ++ toString u.userid ++ ", " ++ format_value (u.clientid.getD "") ++ ", " ++
    format_value (u.username.getD "") ++ ", " ++ format_value (u.password.getD "") ++ ")"

def attrRow (a : Int × String × String) : String :=
  "(" ++ toString a.1 ++ ", " ++ format_value a.2.1 ++ ", " ++ format_value a.2.2 ++ ")"

def ruleRow (r : Rule) : String :=
  "(" ++ format_value r.topic ++ ", " ++ format_value r.static ++ ", " ++
    format_value r.dynamic ++ ", " ++ format_value r.filter ++ ", " ++
    format_value r.hints ++ ", " ++ format_value r.action ++ ", " ++
    toString r.priority ++ ")"

def write_sql (cfg : Config) (rules : List Rule) : String :=
  sqlHeader ++
  "-- users from settings\n" ++
  "insert into users (userid, clientid, username, password) values\n" ++
  String.intercalate ",\n" (cfg.users.map userRow) ++ ";\n\n" ++
  "-- user attributes from settings\n" ++
  "insert into user_attributes (userid, name, val) values\n" ++
  String.intercalate ",\n" (cfg.user_attributes.map attrRow) ++ ";\n\n" ++
  rulesTableDDL ++
  "-- generated rules\n" ++
  (if rules.isEmpty then "-- (no rules generated)\n"
   else
     "insert into rules (topic, static, dynamic, filter, hints, action, priority) values\n" ++
     String.intercalate ",\n" (rules.map ruleRow) ++ ";\n")

/-! ## `main` (lines 539-856) -/

structure Args where
  max_policies : Option Int
  seed : Option Int
deriving DecidableEq, Repr

def noArgs : Args := ⟨none, none⟩

/-- `args.max_policies or cfg.get('max_policies', 1000)`: a CLI zero is falsy
and falls through to the configuration. -/
def effBudget (args : Args) (cfg : Config) : Int :=
  let cfgB := cfg.max_policies.getD 1000
  match args.max_policies with
  | some m => if m = 0 then cfgB else m
  | none => cfgB

/-- The seeding of lines 548-555: the CLI seed overrides the configured one;
a configured value that `int()` rejects leaves the generator unseeded. -/
def effSeed (args : Args) (cfg : Config) : Option Int :=
  match args.seed with
  | some i => some i
  | none =>
    match cfg.seed with
    | none => none
    | some v => pyToInt v

/-- Every rule of one run, in emission order (`main` before `write_sql`);
`ambient` is the generator state inherited from the environment when no seed
is applied. -/
def pipelineRules (args : Args) (cfg : Config) (ambient : RngState) :
    Except String (List Rule) :=
  let s0 := match effSeed args cfg with
    | some i => seedState i
    | none => ambient
  let (r1, s1) := expand_base_policies cfg s0
  match generate_user_attribute_rules cfg s1 with
  | .error e => .error e
  | .ok (r2, s2) =>
    .ok (pipelineTail cfg (effBudget args cfg) (r1 ++ r2) s2).1

/-- The full run: the text written to the output file. -/
def runMain (args : Args) (cfg : Config) (ambient : RngState) :
    Except String String :=
  match pipelineRules args cfg ambient with
  | .error e => .error e
  | .ok rules => .ok (write_sql cfg rules)

/-! ## Predicates and helpers used by the statements and proofs -/

instance {ε α : Type} [DecidableEq ε] [DecidableEq α] : DecidableEq (Except ε α) :=
  fun a b =>
    match a, b with
    | .error e, .error f =>
      if h : e = f then isTrue (by rw [h]) else isFalse (by intro c; cases c; exact h rfl)
    | .error _, .ok _ => isFalse (by intro c; cases c)
    | .ok _, .error _ => isFalse (by intro c; cases c)
    | .ok x, .ok y =>
      if h : x = y then isTrue (by rw [h]) else isFalse (by intro c; cases c; exact h rfl)

def exOk {ε α : Type} : Except ε α → Bool
  | .ok _ => true
  | .error _ => false

/-- Doubled separator detector. -/
def hasDoubleSep : List Char → Bool
  | '/' :: '/' :: _ => true
  | _ :: rest => hasDoubleSep rest
  | [] => false

/-- The topic property asserted by the normalization claim. -/
def topicClaimOk (t : String) : Bool :=
  !hasDoubleSep t.data && t ≠ "" &&
    (t = "#" || (t.data.head? ≠ some '/' && t.data.reverse.head? ≠ some '/'))

/-- The amended topic property: non-empty, no leading/trailing separator. -/
def edgeOk (t : String) : Bool :=
  t ≠ "" && t.data.head? ≠ some '/' && t.data.reverse.head? ≠ some '/'

/-- Well-formedness invariant of the deduplication grouping. -/
def GoodGrouped (m : List (Key4 × Group)) : Prop :=
  (m.map Prod.fst).Nodup ∧
    ∀ kg ∈ m, key4 kg.2.rep = kg.1 ∧ kg.2.counts ≠ [] ∧ (kg.2.counts.map Prod.fst).Nodup

/-- Well-formedness invariant of the generalization pattern table. -/
def GoodBP (m : List (PKey × Item)) : Prop :=
  (m.map Prod.fst).Nodup ∧ ∀ ki ∈ m, tkey ki.2.rule = ki.1

def proj45 (k : Key5) : Key4 := (k.1, k.2.1, k.2.2.1, k.2.2.2.1)

def projT5 (k : Key5) : PKey := (k.1, k.2.1, k.2.2.2.1)

def rulesOfItems (l : List Item) : Multiset Rule := (l.map (·.rule) : List Rule)

def rulesOfGs (gs : List (String × List Item)) : Multiset Rule :=
  (gs.map (fun kb => rulesOfItems kb.2)).sum

def pmRules (pm : List (Int × List (String × List Item))) : Multiset Rule :=
  (pm.map (fun kb => rulesOfGs kb.2)).sum

/-- Remove the first entry with the given key. -/
def removeFirst {α β : Type} [DecidableEq α] (k : α) : List (α × β) → List (α × β)
  | [] => []
  | (k', v) :: rest => if k' = k then rest else (k', v) :: removeFirst k rest

/-! ## Concrete inputs for the example claims, counterexamples and witnesses -/

def st0 : RngState := ⟨0⟩

/-- A literal base policy with fixed action, no expansion. -/
def litP (t : String) (a : String) : BasePolicy :=
  { topic_template := t, expand_on := none, range := none, devices := none,
    static := some "s", dynamic := none, filter := none, hints := none,
    priority := some 1, action := some a, action_probabilities := none }

/-- The expansion-example configuration (claim about `{b}/{fl}/{r}/cam/#`). -/
def cfgExp : Config :=
  { emptyCfg with
    expansions := [("buildings", ["b1", "b2"]), ("floors", ["f1"]), ("rooms", ["r1"])],
    alias_map := [("buildings", ["b"]), ("floors", ["fl"]), ("rooms", ["r"])],
    base_policies := [
      { litP "{b}/{fl}/{r}/cam/#" "grant" with
        expand_on := some ["buildings", "floors", "rooms"] }] }

/-- The generalization-example configuration: budget one, two deduplicated
rules differing only in the room segment, fixed seed. -/
def cfgGen : Config :=
  { emptyCfg with
    max_policies := some 1,
    seed := some (.pnum 42),
    base_policies := [litP "b1/f1/r1/cam/#" "grant", litP "b1/f1/r2/cam/#" "grant"] }

/-- An unnormalized template emitted through the no-expansion branch. -/
def cfgLit : Config :=
  { emptyCfg with base_policies := [litP "a//b/" "grant"] }

/-- A policy expanded over one dimension, for the normalization witness. -/
def cfgExpW : Config :=
  { emptyCfg with
    expansions := [("buildings", ["x1"])],
    alias_map := [("buildings", ["b"])],
    base_policies := [{ litP "/{b}//y/" "grant" with expand_on := some ["buildings"] }] }

def expWPolicy : BasePolicy := { litP "/{b}//y/" "grant" with expand_on := some ["buildings"] }

/-- Three raw rules sharing one identity key with actions grant, grant, deny. -/
def rA (a : String) : Rule := ⟨"a", "s", "", "", "", a, 1⟩

def conflictRules : List Rule := [rA "grant", rA "grant", rA "deny"]

/-- Configuration whose expansion yields `conflictRules`, with no budget key. -/
def cfgConflict : Config :=
  { emptyCfg with base_policies := [litP "a" "grant", litP "a" "grant", litP "a" "deny"] }

/-- The bad-clearance user-attribute record with no matching user record. -/
def cfgClearNoUser : Config :=
  { emptyCfg with user_attributes := [(99, "clearance", "high")] }

/-- The bad-clearance record with a matching user record. -/
def cfgClearUser : Config :=
  { emptyCfg with
    users := [⟨1, some "c1", some "alice", some "pw"⟩],
    user_attributes := [(1, "clearance", "high")] }

/-- A weight table whose entries are all non-numeric or non-positive. -/
def junkWeights : ActPolicy :=
  ⟨some [("grant", .pstr "lots"), ("deny", .pnum (-1)), ("filter", .pnum 0)], some "filter"⟩

def seededArgs : Args := ⟨none, some 7⟩

/-! # Lemmas -/

/-- Fold invariant principle used for the dict-building loops. -/
theorem foldl_inv {α β : Type} {P : α → Prop} (f : α → β → α) (l : List β) (init : α)
    (h0 : P init) (hstep : ∀ a b, b ∈ l → P a → P (f a b)) : P (l.foldl f init) := by
  induction l generalizing init with
  | nil => exact h0
  | cons b bs ih =>
    exact ih (f init b) (hstep init b (by simp) h0)
      (fun a c hc ha => hstep a c (by simp [hc]) ha)

theorem alookup_eq_none {α β : Type} [DecidableEq α] {k : α} {m : List (α × β)} :
    alookup k m = none ↔ k ∉ m.map Prod.fst := by
  induction m with
  | nil => simp [alookup]
  | cons kv rest ih =>
    by_cases h : kv.1 = k
    · simp [alookup, h]
    · simp [alookup, h, ih, Ne.symm h]

theorem alookup_mem {α β : Type} [DecidableEq α] {k : α} {m : List (α × β)} {v : β}
    (h : alookup k m = some v) : (k, v) ∈ m := by
  induction m with
  | nil => simp [alookup] at h
  | cons kv rest ih =>
    obtain ⟨k1, v1⟩ := kv
    by_cases hk : k1 = k
    · simp only [alookup, hk, if_true, Option.some.injEq] at h
      subst hk
      subst h
      exact List.mem_cons_self _ _
    · simp only [alookup, hk, if_false] at h
      exact List.Mem.tail _ (ih h)

theorem map_fst_dictSet {α β : Type} [DecidableEq α] {k : α} {m : List (α × β)}
    {w : β} (v : β) (h : alookup k m = some w) :
    (dictSet m k v).map Prod.fst = m.map Prod.fst := by
  induction m with
  | nil => simp [alookup] at h
  | cons kv rest ih =>
    by_cases hk : kv.1 = k
    · simp [dictSet, hk]
    · simp only [alookup, hk, if_false] at h
      simp [dictSet, hk, ih h]

theorem mem_dictSet {α β : Type} [DecidableEq α] {k : α} {m : List (α × β)} {v : β}
    {x : α × β} (h : x ∈ dictSet m k v) : x = (k, v) ∨ x ∈ m := by
  induction m with
  | nil => simp [dictSet] at h; simp [h]
  | cons kv rest ih =>
    by_cases hk : kv.1 = k
    · simp [dictSet, hk] at h
      rcases h with h | h
      · exact .inl h
      · exact .inr (.tail _ h)
    · simp [dictSet, hk] at h
      rcases h with h | h
      · exact .inr (by simp [h])
      · rcases ih h with h2 | h2
        · exact .inl h2
        · exact .inr (.tail _ h2)

theorem bumpCount_ne_nil (counts : List (String × Nat)) (a : String) :
    bumpCount counts a ≠ [] := by
  unfold bumpCount
  cases h : alookup a counts with
  | none => simp
  | some c =>
    cases counts with
    | nil => simp [alookup] at h
    | cons kv rest => unfold dictSet; by_cases hk : kv.1 = a <;> simp [hk]

theorem map_fst_bumpCount_nodup {counts : List (String × Nat)} {a : String}
    (h : (counts.map Prod.fst).Nodup) : ((bumpCount counts a).map Prod.fst).Nodup := by
  unfold bumpCount
  cases hl : alookup a counts with
  | none =>
    have : a ∉ counts.map Prod.fst := alookup_eq_none.mp hl
    simp [List.nodup_append, h, this]
  | some c =>
    rw [map_fst_dictSet _ hl]
    exact h

theorem sinsert_perm {α : Type} (lt : α → α → Bool) (x : α) (l : List α) :
    List.Perm (sinsert lt x l) (x :: l) := by
  induction l with
  | nil => exact List.Perm.refl _
  | cons y ys ih =>
    unfold sinsert
    by_cases h : lt y x
    · simp only [h, if_true]
      exact ((ih.cons y).trans (List.Perm.swap x y ys))
    · simp only [h, if_false]
      exact List.Perm.refl _

theorem ssort_perm {α : Type} (lt : α → α → Bool) (l : List α) :
    List.Perm (ssort lt l) l := by
  induction l with
  | nil => exact List.Perm.refl _
  | cons y ys ih => exact (sinsert_perm lt y (ssort lt ys)).trans (ih.cons y)

/-! ## Deduplication grouping invariants -/

theorem goodGrouped_step (m : List (Key4 × Group)) (r : Rule) (h : GoodGrouped m) :
    GoodGrouped (groupStep m r) := by
  unfold groupStep
  cases hl : alookup (key4 r) m with
  | none =>
    constructor
    · have hnotin : key4 r ∉ m.map Prod.fst := alookup_eq_none.mp hl
      simp [List.nodup_append, h.1, hnotin]
    · intro kg hkg
      rcases List.mem_append.mp hkg with h2 | h2
      · exact h.2 kg h2
      · simp at h2
        subst h2
        exact ⟨rfl, by simp, by simp⟩
  | some g =>
    have hmem : (key4 r, g) ∈ m := alookup_mem hl
    constructor
    · rw [map_fst_dictSet _ hl]
      exact h.1
    · intro kg hkg
      rcases mem_dictSet hkg with h2 | h2
      · subst h2
        refine ⟨?_, bumpCount_ne_nil _ _, map_fst_bumpCount_nodup (h.2 _ hmem).2.2⟩
        by_cases hp : g.rep.priority < r.priority
        · simp [hp]
        · simp only [hp, if_false]
          exact (h.2 _ hmem).1
      · exact h.2 kg h2

theorem goodGrouped_groupRules (rules : List Rule) : GoodGrouped (groupRules rules) := by
  unfold groupRules
  exact foldl_inv groupStep rules [] ⟨by simp, by simp⟩
    (fun a b _ ha => goodGrouped_step a b ha)

theorem finalizeGo_length (cfg : Config) (m : List (Key4 × Group)) (s : RngState) :
    (finalizeGo cfg m s).1.length = m.length := by
  induction m generalizing s with
  | nil => simp [finalizeGo]
  | cons kg rest ih => simp [finalizeGo, ih]

theorem finalizeGo_map_key4 (cfg : Config) (m : List (Key4 × Group)) (s : RngState) :
    (finalizeGo cfg m s).1.map key4 = m.map (fun kg => key4 kg.2.rep) := by
  induction m generalizing s with
  | nil => simp [finalizeGo]
  | cons kg rest ih =>
    simp [finalizeGo, ih, key4]

/-! ## Majority-vote and action-resolver lemmas -/

theorem le_foldl_max (l : List Nat) (a : Nat) : a ≤ l.foldl Nat.max a := by
  induction l generalizing a with
  | nil => simp
  | cons c cs ih => exact le_trans (Nat.le_max_left a c) (ih (Nat.max a c))

theorem foldl_max_le {l : List Nat} {m : Nat} (a : Nat) (ha : a ≤ m)
    (h : ∀ c ∈ l, c ≤ m) : l.foldl Nat.max a ≤ m := by
  induction l generalizing a with
  | nil => simpa
  | cons c cs ih =>
    exact ih (Nat.max a c) (Nat.max_le.mpr ⟨ha, h c (by simp)⟩)
      (fun d hd => h d (by simp [hd]))

theorem mem_le_foldl_max {l : List Nat} {m : Nat} (a : Nat) (hmem : m ∈ l) :
    m ≤ l.foldl Nat.max a := by
  induction l generalizing a with
  | nil => simp at hmem
  | cons c cs ih =>
    rcases List.mem_cons.mp hmem with h1 | h1
    · subst h1
      exact le_trans (Nat.le_max_right a m) (le_foldl_max cs (Nat.max a m))
    · exact ih _ h1

theorem foldlMax_eq {l : List Nat} {m : Nat} (hmem : m ∈ l) (hle : ∀ c ∈ l, c ≤ m) :
    l.foldl Nat.max 0 = m :=
  le_antisymm (foldl_max_le 0 (Nat.zero_le m) hle) (mem_le_foldl_max 0 hmem)

theorem nodup_key_unique {α β : Type} {l : List (α × β)} {a : α} {v w : β}
    (hnd : (l.map Prod.fst).Nodup) (h1 : (a, v) ∈ l) (h2 : (a, w) ∈ l) : v = w := by
  induction l with
  | nil => simp at h1
  | cons kv rest ih =>
    rcases List.mem_cons.mp h1 with e1 | e1 <;> rcases List.mem_cons.mp h2 with e2 | e2
    · rw [← e1] at e2
      exact (congrArg Prod.snd e2).symm
    · exfalso
      have : a ∈ rest.map Prod.fst := List.mem_map.mpr ⟨(a, w), e2, rfl⟩
      rw [← e1] at hnd
      exact (List.nodup_cons.mp hnd).1 this
    · exfalso
      have : a ∈ rest.map Prod.fst := List.mem_map.mpr ⟨(a, v), e1, rfl⟩
      rw [← e2] at hnd
      exact (List.nodup_cons.mp hnd).1 this
    · exact ih (List.nodup_cons.mp hnd).2 e1 e2

theorem filter_unique_max {counts : List (String × Nat)} {a : String} {m : Nat}
    (hnd : (counts.map Prod.fst).Nodup) (hmem : (a, m) ∈ counts)
    (hlt : ∀ bc ∈ counts, bc.1 ≠ a → bc.2 < m) :
    counts.filter (fun bc => bc.2 = m) = [(a, m)] := by
  induction counts with
  | nil => simp at hmem
  | cons bc rest ih =>
    rcases List.mem_cons.mp hmem with h1 | h1
    · have hrest : rest.filter (fun bc => bc.2 = m) = [] := by
        rw [List.filter_eq_nil_iff]
        intro x hx
        have hxa : x.1 ≠ a := by
          intro he
          have : a ∈ rest.map Prod.fst := List.mem_map.mpr ⟨x, hx, he⟩
          rw [← h1] at hnd
          exact (List.nodup_cons.mp hnd).1 this
        have := hlt x (List.Mem.tail _ hx) hxa
        simp
        omega
      rw [← h1]
      simp [List.filter_cons, hrest]
    · have hba : bc.1 ≠ a := by
        intro he
        have : a ∈ rest.map Prod.fst := List.mem_map.mpr ⟨(a, m), h1, rfl⟩
        rw [← he] at this
        exact (List.nodup_cons.mp hnd).1 this
      have hblt := hlt bc (by simp) hba
      have hne : ¬ (bc.2 = m) := by omega
      rw [List.filter_cons, if_neg (by simpa using hne)]
      exact ih (List.nodup_cons.mp hnd).2 h1
        (fun x hx hxa => hlt x (List.Mem.tail _ hx) hxa)

theorem getD_singleton {α : Type} (a : α) (n : Nat) : ([a].getD n a) = a := by
  cases n <;> simp [List.getD]

theorem pickWeighted_fst_singleton (cfg : Config) (a : String) (s : RngState) :
    (pickWeighted cfg a [] s).1 = a := by
  unfold pickWeighted
  by_cases h : ([a].map fun x =>
      match alookup x (cfg.action_probabilities.getD []) with
      | none => (0 : PRat)
      | some v => if pvTruthy v then pyFloatOr0 v else 0).foldl (· + ·) 0 ≤ 0
  · simp only [h, if_true]
    unfold randChoice
    simp [getD_singleton]
  · simp only [h, if_false]
    rfl

/-! ## Topic-normalization lemmas -/

theorem head_dropWhile_ne (c : Char) (l : List Char) :
    ((l.dropWhile (· = c)).head? = some c) → False := by
  induction l with
  | nil => simp [List.dropWhile]
  | cons x xs ih =>
    by_cases h : x = c
    · simpa [List.dropWhile, h] using ih
    · simp [List.dropWhile, h]

theorem head?_of_pref {α : Type} {l2 l1 : List α} (h : l2 <+: l1) (hne : l2 ≠ []) :
    l2.head? = l1.head? := by
  obtain ⟨t, ht⟩ := h
  subst ht
  cases l2 with
  | nil => exact absurd rfl hne
  | cons x xs => rfl

theorem chStrip_rev (c : Char) (l : List Char) :
    (chStrip c l).reverse = (l.dropWhile (· = c)).reverse.dropWhile (· = c) := by
  simp [chStrip]

theorem chStrip_pref (c : Char) (l : List Char) :
    chStrip c l <+: l.dropWhile (· = c) := by
  unfold chStrip
  have h2 := List.reverse_prefix.mpr
    (List.dropWhile_suffix (l := (l.dropWhile (· = c)).reverse) (p := (· = c)))
  simpa using h2

theorem normTopic_edgeOk (t : String) : edgeOk (normTopic t) = true := by
  unfold normTopic
  by_cases h : pyStrip '/' (String.mk (collapseDS t.data)) = ""
  · simp only [h, if_true]
    decide
  · simp only [h, if_false]
    have hne : chStrip '/' (collapseDS t.data) ≠ [] := by
      intro hc
      apply h
      show String.mk (chStrip '/' (collapseDS t.data)) = ""
      rw [hc]
    have h1 : ¬ ((chStrip '/' (collapseDS t.data)).head? = some '/') := by
      rw [head?_of_pref (chStrip_pref '/' (collapseDS t.data)) hne]
      exact fun hh => head_dropWhile_ne _ _ hh
    have h2 : ¬ ((chStrip '/' (collapseDS t.data)).reverse.head? = some '/') := by
      rw [chStrip_rev]
      exact fun hh => head_dropWhile_ne _ _ hh
    unfold edgeOk
    simp only [Bool.and_eq_true, decide_eq_true_eq, ne_eq]
    exact ⟨⟨h, h1⟩, h2⟩

theorem rangeStep_topic (p : BasePolicy) (cfg : Config) (topic : String)
    (acc : List Rule × RngState) (v : Int)
    (hacc : ∀ r ∈ acc.1, r.topic = topic) :
    ∀ r ∈ (rangeStep p cfg topic acc v).1, r.topic = topic := by
  intro r hr
  unfold rangeStep at hr
  rcases hs : substRange v (p.static.getD "") (p.dynamic.getD "") (p.filter.getD "")
    with ⟨st, dy, fl⟩
  rw [hs] at hr
  rcases hca : choose_action p.toActPolicy cfg acc.2 with ⟨action, s2⟩
  rw [hca] at hr
  simp at hr
  rcases hr with h1 | h1
  · exact hacc r h1
  · rw [h1]

theorem rangeFold_topic (p : BasePolicy) (cfg : Config) (topic : String)
    (vs : List Int) (init : List Rule × RngState)
    (hinit : ∀ r ∈ init.1, r.topic = topic) :
    ∀ r ∈ (vs.foldl (rangeStep p cfg topic) init).1, r.topic = topic := by
  induction vs generalizing init with
  | nil => exact hinit
  | cons v rest ih =>
    exact ih (rangeStep p cfg topic init v) (rangeStep_topic p cfg topic init v hinit)

theorem rangeRules_topic (p : BasePolicy) (cfg : Config) (topic : String) (s : RngState) :
    ∀ r ∈ (rangeRules p cfg topic s).1, r.topic = topic := by
  unfold rangeRules
  cases p.range with
  | none =>
    intro r hr
    rcases hca : choose_action p.toActPolicy cfg s with ⟨a, s2⟩
    rw [hca] at hr
    simp at hr
    rw [hr]
  | some rc =>
    exact rangeFold_topic p cfg topic _ ([], s) (by simp)

/-! ## Claim C4: topic normalization -/

/-- Claim C4 (amended): every rule produced by a base policy that declares a
non-empty `expand_on` list has a normalized topic: non-empty, no leading
separator, no trailing separator.  (Rules from templates with no expansion
dimensions are emitted literally with no normalization at all, and the
doubled-separator collapse is a single pass — see the counterexample.) -/
theorem comboStep_edgeOk (cfg : Config) (p : BasePolicy) (dims : List String)
    (acc : List Rule × RngState) (combo : List String)
    (hacc : ∀ r ∈ acc.1, edgeOk r.topic = true) :
    ∀ r ∈ (comboStep cfg p dims acc combo).1, edgeOk r.topic = true := by
  intro r hr
  unfold comboStep at hr
  dsimp only at hr
  rcases hrr : rangeRules p cfg
      (normTopic ((pyFormat p.topic_template
        (comboMapping cfg dims combo)).getD p.topic_template)) acc.2
    with ⟨rs, s2⟩
  rw [hrr] at hr
  simp at hr
  rcases hr with h1 | h1
  · exact hacc r h1
  · have ht := rangeRules_topic p cfg
      (normTopic ((pyFormat p.topic_template
        (comboMapping cfg dims combo)).getD p.topic_template)) acc.2 r
      (by rw [hrr]; exact h1)
    rw [ht]
    exact normTopic_edgeOk _

theorem comboFold_edgeOk (cfg : Config) (p : BasePolicy) (dims : List String)
    (combos : List (List String)) (init : List Rule × RngState)
    (hinit : ∀ r ∈ init.1, edgeOk r.topic = true) :
    ∀ r ∈ (combos.foldl (comboStep cfg p dims) init).1, edgeOk r.topic = true := by
  induction combos generalizing init with
  | nil => exact hinit
  | cons combo rest ih =>
    exact ih (comboStep cfg p dims init combo)
      (comboStep_edgeOk cfg p dims init combo hinit)

theorem c4_expanded_topics_normalized (cfg : Config) (p : BasePolicy) (s : RngState)
    (d : String) (ds : List String) (h : p.expand_on = some (d :: ds)) :
    ∀ r ∈ (expandOnePolicy cfg p s).1, edgeOk r.topic = true := by
  unfold expandOnePolicy
  rw [h]
  exact comboFold_edgeOk cfg p (d :: ds) _ ([], s) (by simp)

theorem c4_witness :
    expWPolicy.expand_on = some ["buildings"] ∧
      ∀ r ∈ (expandOnePolicy cfgExpW expWPolicy st0).1, edgeOk r.topic = true :=
  ⟨rfl, c4_expanded_topics_normalized cfgExpW expWPolicy st0 "buildings" [] rfl⟩

/-- Counterexample to claim C4 as stated: a template with no expansion
dimensions is emitted literally, so the topic `a//b/` reaches the output with
a doubled separator and a trailing separator. -/
theorem c4_counterexample :
    (expand_base_policies cfgLit st0).1.map (·.topic) = ["a//b/"] ∧
      (expand_base_policies cfgLit st0).1.map (fun r => topicClaimOk r.topic) =
        [false] := by
  constructor
  · decide
  · decide

/-! ## Claim C6: expansion example -/

set_option maxRecDepth 4000 in
/-- Claim C6: the template `{b}/{fl}/{r}/cam/#` expanded over buildings,
floors and rooms with values b1,b2 / f1 / r1 and the alias map
buildings→b, floors→fl, rooms→r produces exactly the two rules with topics
`b1/f1/r1/cam/#` and `b2/f1/r1/cam/#`, for every generator state. -/
theorem c6_expansion_example :
    ∀ s : RngState, (expand_base_policies cfgExp s).1.map (·.topic) =
      ["b1/f1/r1/cam/#", "b2/f1/r1/cam/#"] :=
  fun _ => rfl

/-! ## Claim C5: generalization example -/

/-- Counterexample to claim C5 as stated: the run over the two-rule,
budget-one configuration does not produce the claimed topic
`b1/f1/+/cam/#` — the reducer splits the last topic segment on `#`, so the
device token is dropped from every generalized pattern. -/
theorem c5_counterexample :
    (pipelineRules noArgs cfgGen st0).map (fun l => l.map (·.topic)) ≠
      Except.ok ["b1/f1/+/cam/#"] := by
  decide

/-- Claim C5 (amended): for the configuration with budget one whose
deduplicated set is exactly the two rules `b1/f1/r1/cam/#` and
`b1/f1/r2/cam/#` (same static predicate and priority), the pipeline emits
exactly one rule, whose topic is the room-level generalization with the
device segment collapsed into the wildcard suffix: `b1/f1/+/#` — not the
catch-all `#`, and not `b1/f1/+/cam/#`. -/
theorem c5_generalization_example :
    ((groupRules (expand_base_policies cfgGen st0).1).map Prod.fst =
      [("b1/f1/r1/cam/#", "s", "", 1), ("b1/f1/r2/cam/#", "s", "", 1)]) ∧
    (pipelineRules noArgs cfgGen st0).map (fun l => l.map (·.topic)) =
      Except.ok ["b1/f1/+/#"] := by
  constructor
  · decide
  · decide

/-! ## Length bounds of the selection strategies -/

theorem backfillGo_len_ge (maxP : Int) (cands : List (Nat × Rule)) (uniq : List Rule)
    (ex : List Key5) : uniq.length ≤ (backfillGo maxP cands uniq ex).length := by
  induction cands generalizing uniq ex with
  | nil => simp [backfillGo]
  | cons c rest ih =>
    obtain ⟨cnt, cand⟩ := c
    unfold backfillGo
    by_cases h1 : (uniq.length : Int) ≥ maxP
    · simp [h1]
    · simp only [h1, if_false]
      by_cases h2 : key5 cand ∈ ex
      · simp only [h2, if_true]
        exact ih uniq ex
      · simp only [h2, if_false]
        have := ih (uniq ++ [cand]) (ex ++ [key5 cand])
        simp at this
        omega

theorem backfillGo_len_le (maxP : Int) (cands : List (Nat × Rule)) (uniq : List Rule)
    (ex : List Key5) (h : (uniq.length : Int) ≤ maxP) :
    ((backfillGo maxP cands uniq ex).length : Int) ≤ maxP := by
  induction cands generalizing uniq ex with
  | nil => simpa [backfillGo]
  | cons c rest ih =>
    obtain ⟨cnt, cand⟩ := c
    unfold backfillGo
    by_cases h1 : (uniq.length : Int) ≥ maxP
    · simpa [h1]
    · simp only [h1, if_false]
      by_cases h2 : key5 cand ∈ ex
      · simp only [h2, if_true]
        exact ih uniq ex h
      · simp only [h2, if_false]
        refine ih (uniq ++ [cand]) (ex ++ [key5 cand]) ?_
        simp
        omega

theorem rrGo_len_le (maxP : Int) (fuel : Nat) (q : List String)
    (gs : List (String × List Item)) (sel : List Rule)
    (h : (sel.length : Int) ≤ maxP) :
    ((rrGo maxP fuel q gs sel).length : Int) ≤ maxP := by
  induction fuel generalizing q gs sel with
  | zero => simpa [rrGo]
  | succ n ih =>
    cases q with
    | nil => simpa [rrGo]
    | cons k qrest =>
      unfold rrGo
      by_cases h1 : (sel.length : Int) < maxP
      · simp only [h1, if_true]
        cases hl : alookup k gs with
        | none => exact ih qrest gs sel h
        | some bucket =>
          cases bucket with
          | nil => exact ih qrest gs sel h
          | cons it rest =>
            refine ih _ _ _ ?_
            simp
            omega
      · simpa [h1]

theorem takeLoop_len_le (maxP : Int) (n : Nat) (bucket : List Item) (sel : List Rule)
    (h : (sel.length : Int) ≤ maxP) :
    (((takeLoop maxP n bucket sel).1.length : Int)) ≤ maxP := by
  induction n generalizing bucket sel with
  | zero => simpa [takeLoop]
  | succ m ih =>
    unfold takeLoop
    by_cases h1 : (sel.length : Int) ≥ maxP
    · simpa [h1]
    · simp only [h1, if_false]
      cases bucket with
      | nil => simpa
      | cons it rest =>
        refine ih rest (sel ++ [it.rule]) ?_
        simp
        omega

theorem propPhase1_len_le (maxP : Int) (alloc : List (String × Int))
    (gs : List (String × List Item)) (sel : List Rule)
    (h : (sel.length : Int) ≤ maxP) :
    (((propPhase1 maxP alloc gs sel).1.length : Int)) ≤ maxP := by
  induction alloc generalizing gs sel with
  | nil => simpa [propPhase1]
  | cons ks rest ih =>
    obtain ⟨k, share⟩ := ks
    unfold propPhase1
    cases hl : alookup k gs with
    | none => exact ih gs sel h
    | some bucket =>
      refine ih _ _ ?_
      exact takeLoop_len_le maxP _ bucket sel h

theorem fillLoop_len_le (maxP : Int) (items : List Item) (sel : List Rule)
    (h : (sel.length : Int) ≤ maxP) :
    ((fillLoop maxP items sel).length : Int) ≤ maxP := by
  induction items generalizing sel with
  | nil => simpa [fillLoop]
  | cons it rest ih =>
    unfold fillLoop
    by_cases h1 : (sel.length : Int) < maxP
    · simp only [h1, if_true]
      refine ih (sel ++ [it.rule]) ?_
      simp
      omega
    · simpa [h1]

theorem pbGo_len_le (pm : List (Int × List (String × List Item))) (maxP : Int)
    (ps : List Int) (sel : List Rule) (h : (sel.length : Int) ≤ maxP) :
    ((pbGo pm maxP ps sel).length : Int) ≤ maxP := by
  induction ps generalizing sel with
  | nil => simpa [pbGo]
  | cons p rest ih =>
    unfold pbGo
    have hr := rrGo_len_le maxP (gsSize ((alookup p pm).getD []) +
      ((alookup p pm).getD []).length + 1)
      (((alookup p pm).getD []).map (·.1)) ((alookup p pm).getD []) sel h
    by_cases h1 : ((rrGo maxP (gsSize ((alookup p pm).getD []) +
        ((alookup p pm).getD []).length + 1)
        (((alookup p pm).getD []).map (·.1)) ((alookup p pm).getD []) sel).length : Int) ≥ maxP
    · simpa [h1]
    · simp only [h1, if_false]
      exact ih _ hr

theorem pyTake_len_le {α : Type} (n : Int) (hn : 0 ≤ n) (l : List α) :
    ((pyTake n l).length : Int) ≤ n := by
  unfold pyTake
  simp only [hn, if_true]
  have := List.length_take n.toNat l
  simp [this]
  omega

theorem roundRobinSelect_len_le (gs : List (String × List Item)) (maxP : Int)
    (hP : 0 ≤ maxP) : ((roundRobinSelect gs maxP).length : Int) ≤ maxP := by
  unfold roundRobinSelect
  exact rrGo_len_le _ _ _ _ _ (by simpa)

theorem propSelect_len_le (gs : List (String × List Item)) (maxP : Int)
    (hP : 0 ≤ maxP) : ((propSelect gs maxP).length : Int) ≤ maxP := by
  unfold propSelect
  rcases hpp : propPhase1 maxP (propAlloc gs maxP) gs [] with ⟨sel1, gs1⟩
  have h1 := propPhase1_len_le maxP (propAlloc gs maxP) gs [] (by simpa)
  rw [hpp] at h1
  exact fillLoop_len_le _ _ _ h1

theorem prioBucketsSelect_len_le (gs : List (String × List Item)) (maxP : Int)
    (hP : 0 ≤ maxP) : ((prioBucketsSelect gs maxP).length : Int) ≤ maxP := by
  unfold prioBucketsSelect
  exact pbGo_len_le _ _ _ _ (by simpa)

theorem defaultSelect_len_le (gs : List (String × List Item)) (maxP : Int)
    (hP : 0 ≤ maxP) : ((defaultSelect gs maxP).length : Int) ≤ maxP := by
  unfold defaultSelect
  rw [List.length_map]
  exact pyTake_len_le maxP hP _

theorem reduceSelect_len_le (cfg : Config) (maxP : Int) (uniq : List Rule)
    (s : RngState) (hP : 0 ≤ maxP) :
    (((reduceSelect cfg maxP uniq s).1.length : Int)) ≤ maxP := by
  unfold reduceSelect
  rcases hbp : bpResolveGo cfg (buildByPattern uniq) s with ⟨bp2, s1⟩
  by_cases h1 : genDistribution cfg = "round_robin"
  · simpa [h1] using roundRobinSelect_len_le _ maxP hP
  · by_cases h2 : genDistribution cfg = "proportional"
    · simpa [h1, h2] using propSelect_len_le _ maxP hP
    · by_cases h3 : genDistribution cfg = "priority_buckets"
      · simpa [h1, h2, h3] using prioBucketsSelect_len_le _ maxP hP
      · simpa [h1, h2, h3] using defaultSelect_len_le _ maxP hP

/-! ## Multiset accounting for the selection strategies

Every strategy pops items from the group store without replacement, so the
selected rules form a sub-multiset of the store's rules; since the pattern
table has one item per `(topic, static, priority)` key, the selected rules
then have pairwise distinct such triples. -/

theorem rulesOfGs_cons (kb : String × List Item) (rest : List (String × List Item)) :
    rulesOfGs (kb :: rest) = rulesOfItems kb.2 + rulesOfGs rest := by
  simp [rulesOfGs]

theorem rulesOfItems_cons (it : Item) (rest : List Item) :
    rulesOfItems (it :: rest) = ↑[it.rule] + rulesOfItems rest := by
  simp [rulesOfItems]

theorem rulesOfItems_append (a b : List Item) :
    rulesOfItems (a ++ b) = rulesOfItems a + rulesOfItems b := by
  simp [rulesOfItems]

theorem pmRules_cons (kb : Int × List (String × List Item))
    (rest : List (Int × List (String × List Item))) :
    pmRules (kb :: rest) = rulesOfGs kb.2 + pmRules rest := by
  simp [pmRules]

theorem rulesOfGs_dictSet {gs : List (String × List Item)} {k : String}
    {b : List Item} (b' : List Item) (h : alookup k gs = some b) :
    rulesOfGs (dictSet gs k b') + rulesOfItems b = rulesOfGs gs + rulesOfItems b' := by
  induction gs with
  | nil => simp [alookup] at h
  | cons kb rest ih =>
    by_cases hk : kb.1 = k
    · simp only [alookup, hk, if_true, Option.some.injEq] at h
      subst h
      simp only [dictSet, hk, if_true, rulesOfGs_cons]
      abel
    · simp only [alookup, hk, if_false] at h
      simp only [dictSet, hk, if_false, rulesOfGs_cons]
      have := ih h
      calc rulesOfItems kb.2 + rulesOfGs (dictSet rest k b') + rulesOfItems b
          = rulesOfItems kb.2 + (rulesOfGs (dictSet rest k b') + rulesOfItems b) := by abel
        _ = rulesOfItems kb.2 + (rulesOfGs rest + rulesOfItems b') := by rw [this]
        _ = rulesOfItems kb.2 + rulesOfGs rest + rulesOfItems b' := by abel

theorem pmRules_dictSet {pm : List (Int × List (String × List Item))} {p : Int}
    {sub : List (String × List Item)} (sub' : List (String × List Item))
    (h : alookup p pm = some sub) :
    pmRules (dictSet pm p sub') + rulesOfGs sub = pmRules pm + rulesOfGs sub' := by
  induction pm with
  | nil => simp [alookup] at h
  | cons kb rest ih =>
    by_cases hk : kb.1 = p
    · simp only [alookup, hk, if_true, Option.some.injEq] at h
      subst h
      simp only [dictSet, hk, if_true, pmRules_cons]
      abel
    · simp only [alookup, hk, if_false] at h
      simp only [dictSet, hk, if_false, pmRules_cons]
      have := ih h
      calc rulesOfGs kb.2 + pmRules (dictSet rest p sub') + rulesOfGs sub
          = rulesOfGs kb.2 + (pmRules (dictSet rest p sub') + rulesOfGs sub) := by abel
        _ = rulesOfGs kb.2 + (pmRules rest + rulesOfGs sub') := by rw [this]
        _ = rulesOfGs kb.2 + pmRules rest + rulesOfGs sub' := by abel

theorem rulesOfGs_append (a b : List (String × List Item)) :
    rulesOfGs (a ++ b) = rulesOfGs a + rulesOfGs b := by
  simp [rulesOfGs]

theorem pmRules_append (a b : List (Int × List (String × List Item))) :
    pmRules (a ++ b) = pmRules a + pmRules b := by
  simp [pmRules]

theorem rulesOfGs_gAppend (gs : List (String × List Item)) (k : String) (it : Item) :
    rulesOfGs (gAppend gs k it) = rulesOfGs gs + ↑[it.rule] := by
  induction gs with
  | nil => simp [gAppend, rulesOfGs, rulesOfItems]
  | cons kb rest ih =>
    by_cases hk : kb.1 = k
    · simp only [gAppend, hk, if_true, rulesOfGs_cons, rulesOfItems_append]
      simp [rulesOfItems]
      abel
    · simp only [gAppend, hk, if_false, rulesOfGs_cons, ih]
      abel

theorem pmRules_pmInsert (pm : List (Int × List (String × List Item))) (p : Int)
    (k : String) (it : Item) :
    pmRules (pmInsert pm p k it) = pmRules pm + ↑[it.rule] := by
  unfold pmInsert
  cases h : alookup p pm with
  | none =>
    rw [pmRules_append]
    simp [pmRules_cons, pmRules, rulesOfGs_gAppend, rulesOfGs, rulesOfItems]
  | some sub =>
    have key := pmRules_dictSet (gAppend sub k it) h
    rw [rulesOfGs_gAppend] at key
    have : pmRules (dictSet pm p (gAppend sub k it)) + rulesOfGs sub
        = (pmRules pm + ↑[it.rule]) + rulesOfGs sub := by
      rw [key]
      abel
    exact add_right_cancel this

theorem buildPrioMap_inner_rules (bucket : List Item) (k : String)
    (pm : List (Int × List (String × List Item))) :
    pmRules (bucket.foldl (fun pm2 it => pmInsert pm2 it.rule.priority k it) pm)
      = pmRules pm + rulesOfItems bucket := by
  induction bucket generalizing pm with
  | nil =>
    show pmRules pm = pmRules pm + rulesOfItems []
    rw [show rulesOfItems [] = 0 from rfl, add_zero]
  | cons it rest ih =>
    rw [List.foldl_cons, ih, pmRules_pmInsert, rulesOfItems_cons]
    abel

theorem buildPrioMap_go_rules (gs : List (String × List Item))
    (pm : List (Int × List (String × List Item))) :
    pmRules (gs.foldl
        (fun pm kb => kb.2.foldl (fun pm2 it => pmInsert pm2 it.rule.priority kb.1 it) pm)
        pm)
      = pmRules pm + rulesOfGs gs := by
  induction gs generalizing pm with
  | nil =>
    show pmRules pm = pmRules pm + rulesOfGs []
    rw [show rulesOfGs [] = 0 from rfl, add_zero]
  | cons kb rest ih =>
    rw [List.foldl_cons, ih, buildPrioMap_inner_rules, rulesOfGs_cons]
    abel

theorem buildPrioMap_rules (gs : List (String × List Item)) :
    pmRules (buildPrioMap gs) = rulesOfGs gs := by
  unfold buildPrioMap
  rw [buildPrioMap_go_rules]
  simp [pmRules]

theorem foldl_append_eq {α β : Type} (f : β → List α) (l : List β) (init : List α) :
    l.foldl (fun acc b => acc ++ f b) init = init ++ l.flatMap f := by
  induction l generalizing init with
  | nil => simp
  | cons b rest ih => simp [ih]

theorem flatten_rules (gs : List (String × List Item)) :
    (↑((gs.foldl (fun acc kb => acc ++ kb.2) []).map (·.rule)) : Multiset Rule)
      = rulesOfGs gs := by
  rw [foldl_append_eq (fun kb => kb.2) gs []]
  induction gs with
  | nil => simp [rulesOfGs]
  | cons kb rest ih =>
    simp only [List.flatMap_cons, List.nil_append] at ih ⊢
    rw [List.map_append, ← Multiset.coe_add, rulesOfGs_cons, ← ih]
    rfl

theorem rulesOfItems_perm {a b : List Item} (h : List.Perm a b) :
    rulesOfItems a = rulesOfItems b := by
  unfold rulesOfItems
  exact Multiset.coe_eq_coe.mpr (h.map _)

theorem rulesOfGs_sortGroups (gs : List (String × List Item)) :
    rulesOfGs (sortGroups gs) = rulesOfGs gs := by
  unfold sortGroups rulesOfGs
  rw [List.map_map]
  congr 1
  refine List.map_congr_left ?_
  intro kb _
  exact rulesOfItems_perm (ssort_perm rankLt kb.2)

theorem buildGroups_go_rules (gkey : String) (items : List Item)
    (gs : List (String × List Item)) :
    rulesOfGs (items.foldl (fun gs it => gAppend gs (groupKeyOf gkey it.rule) it) gs)
      = rulesOfGs gs + rulesOfItems items := by
  induction items generalizing gs with
  | nil =>
    show rulesOfGs gs = rulesOfGs gs + rulesOfItems []
    rw [show rulesOfItems [] = 0 from rfl, add_zero]
  | cons it rest ih =>
    rw [List.foldl_cons, ih, rulesOfGs_gAppend, rulesOfItems_cons]
    abel

theorem rulesOfGs_buildGroups (gkey : String) (items : List Item) :
    rulesOfGs (buildGroups gkey items) = rulesOfItems items := by
  unfold buildGroups
  rw [buildGroups_go_rules]
  simp [rulesOfGs]

/-! ## The strategies select a sub-multiset of the store -/

theorem rrGo_ms (maxP : Int) (fuel : Nat) (q : List String)
    (gs : List (String × List Item)) (sel : List Rule) :
    (↑(rrGo maxP fuel q gs sel) : Multiset Rule) ≤ ↑sel + rulesOfGs gs := by
  induction fuel generalizing q gs sel with
  | zero => simp [rrGo]
  | succ n ih =>
    cases q with
    | nil => simp [rrGo]
    | cons k qrest =>
      unfold rrGo
      by_cases h1 : (sel.length : Int) < maxP
      · simp only [h1, if_true]
        cases hl : alookup k gs with
        | none => exact ih qrest gs sel
        | some bucket =>
          cases bucket with
          | nil => exact ih qrest gs sel
          | cons it rest =>
            refine le_trans (ih _ _ _) ?_
            have key := rulesOfGs_dictSet rest hl
            rw [rulesOfItems_cons] at key
            have hgs : rulesOfGs (dictSet gs k rest) + ↑[it.rule] = rulesOfGs gs := by
              have h2 : (rulesOfGs (dictSet gs k rest) + ↑[it.rule]) + rulesOfItems rest
                  = rulesOfGs gs + rulesOfItems rest := by
                rw [← key]
                abel
              exact add_right_cancel h2
            apply le_of_eq
            rw [← Multiset.coe_add]
            calc (↑sel + ↑[it.rule] : Multiset Rule) + rulesOfGs (dictSet gs k rest)
                = ↑sel + (rulesOfGs (dictSet gs k rest) + ↑[it.rule]) := by abel
              _ = ↑sel + rulesOfGs gs := by rw [hgs]
      · simp only [h1, if_false]
        exact Multiset.le_add_right _ _

theorem takeLoop_ms (maxP : Int) (n : Nat) (bucket : List Item) (sel : List Rule) :
    (↑(takeLoop maxP n bucket sel).1 : Multiset Rule)
        + rulesOfItems (takeLoop maxP n bucket sel).2
      = ↑sel + rulesOfItems bucket := by
  induction n generalizing bucket sel with
  | zero => simp [takeLoop]
  | succ m ih =>
    unfold takeLoop
    by_cases h1 : (sel.length : Int) ≥ maxP
    · simp [h1]
    · simp only [h1, if_false]
      cases bucket with
      | nil => simp
      | cons it rest =>
        rw [ih rest (sel ++ [it.rule]), rulesOfItems_cons, ← Multiset.coe_add]
        abel

theorem propPhase1_ms_step (maxP : Int) (rest : List (String × Int))
    (gs : List (String × List Item)) (sel : List Rule) (k : String)
    (bucket : List Item) (T : List Rule × List Item)
    (hl : alookup k gs = some bucket)
    (hT : (↑T.1 : Multiset Rule) + rulesOfItems T.2 = ↑sel + rulesOfItems bucket)
    (ih : ∀ (gs2 : List (String × List Item)) (sel2 : List Rule),
      (↑(propPhase1 maxP rest gs2 sel2).1 : Multiset Rule)
          + rulesOfGs (propPhase1 maxP rest gs2 sel2).2
        = ↑sel2 + rulesOfGs gs2) :
    (↑(propPhase1 maxP rest (dictSet gs k T.2) T.1).1 : Multiset Rule)
        + rulesOfGs (propPhase1 maxP rest (dictSet gs k T.2) T.1).2
      = ↑sel + rulesOfGs gs := by
  rw [ih (dictSet gs k T.2) T.1]
  have key := rulesOfGs_dictSet T.2 hl
  have h2 : (↑T.1 + rulesOfGs (dictSet gs k T.2)) + rulesOfItems bucket
      = (↑sel + rulesOfGs gs) + rulesOfItems bucket := by
    calc ((↑T.1 : Multiset Rule) + rulesOfGs (dictSet gs k T.2)) + rulesOfItems bucket
        = ↑T.1 + (rulesOfGs (dictSet gs k T.2) + rulesOfItems bucket) := by abel
      _ = ↑T.1 + (rulesOfGs gs + rulesOfItems T.2) := by rw [key]
      _ = (↑T.1 + rulesOfItems T.2) + rulesOfGs gs := by abel
      _ = (↑sel + rulesOfItems bucket) + rulesOfGs gs := by rw [hT]
      _ = (↑sel + rulesOfGs gs) + rulesOfItems bucket := by abel
  exact add_right_cancel h2

theorem propPhase1_ms (maxP : Int) (alloc : List (String × Int))
    (gs : List (String × List Item)) (sel : List Rule) :
    (↑(propPhase1 maxP alloc gs sel).1 : Multiset Rule)
        + rulesOfGs (propPhase1 maxP alloc gs sel).2
      = ↑sel + rulesOfGs gs := by
  induction alloc generalizing gs sel with
  | nil => simp [propPhase1]
  | cons ks rest ih =>
    obtain ⟨k, share⟩ := ks
    unfold propPhase1
    cases hl : alookup k gs with
    | none => exact ih gs sel
    | some bucket =>
      exact propPhase1_ms_step maxP rest gs sel k bucket _ hl
        (takeLoop_ms maxP _ bucket sel) (fun gs2 sel2 => ih gs2 sel2)

theorem fillLoop_ms (maxP : Int) (items : List Item) (sel : List Rule) :
    (↑(fillLoop maxP items sel) : Multiset Rule) ≤ ↑sel + rulesOfItems items := by
  induction items generalizing sel with
  | nil => simp [fillLoop]
  | cons it rest ih =>
    unfold fillLoop
    by_cases h1 : (sel.length : Int) < maxP
    · simp only [h1, if_true]
      refine le_trans (ih (sel ++ [it.rule])) ?_
      rw [rulesOfItems_cons, ← Multiset.coe_add]
      apply le_of_eq
      abel
    · simp only [h1, if_false]
      exact Multiset.le_add_right _ _

def lookupSum (pm : List (Int × List (String × List Item))) (ps : List Int) :
    Multiset Rule :=
  (ps.map (fun p => rulesOfGs ((alookup p pm).getD []))).sum

theorem pbGo_ms (pm : List (Int × List (String × List Item))) (maxP : Int)
    (ps : List Int) (sel : List Rule) :
    (↑(pbGo pm maxP ps sel) : Multiset Rule) ≤ ↑sel + lookupSum pm ps := by
  induction ps generalizing sel with
  | nil => simp [pbGo, lookupSum]
  | cons p rest ih =>
    unfold pbGo
    have hrr := rrGo_ms maxP (gsSize ((alookup p pm).getD []) +
      ((alookup p pm).getD []).length + 1)
      (((alookup p pm).getD []).map (·.1)) ((alookup p pm).getD []) sel
    have hsum : lookupSum pm (p :: rest)
        = rulesOfGs ((alookup p pm).getD []) + lookupSum pm rest := by
      simp [lookupSum]
    by_cases h1 : ((rrGo maxP (gsSize ((alookup p pm).getD []) +
        ((alookup p pm).getD []).length + 1)
        (((alookup p pm).getD []).map (·.1)) ((alookup p pm).getD []) sel).length : Int)
        ≥ maxP
    · simp only [h1, if_true]
      rw [hsum]
      refine le_trans hrr ?_
      exact add_le_add_left (Multiset.le_add_right _ _) _
    · simp only [h1, if_false]
      refine le_trans (ih _) ?_
      rw [hsum]
      calc (↑(rrGo maxP _ _ _ sel) : Multiset Rule) + lookupSum pm rest
          ≤ (↑sel + rulesOfGs ((alookup p pm).getD [])) + lookupSum pm rest :=
            add_le_add_right hrr _
        _ = ↑sel + (rulesOfGs ((alookup p pm).getD []) + lookupSum pm rest) := by abel

theorem alookup_removeFirst {α β : Type} [DecidableEq α] {m : List (α × β)} {k q : α}
    (h : q ≠ k) : alookup q (removeFirst k m) = alookup q m := by
  induction m with
  | nil => rfl
  | cons kv rest ih =>
    obtain ⟨k1, v1⟩ := kv
    by_cases hk : k1 = k
    · subst hk
      have hq : ¬ k1 = q := fun he => h he.symm
      simp [removeFirst, alookup, hq]
    · by_cases hq : k1 = q
      · subst hq
        simp [removeFirst, hk, alookup]
      · simp [removeFirst, hk, alookup, hq, ih]

theorem pmRules_removeFirst {pm : List (Int × List (String × List Item))} {p : Int}
    {sub : List (String × List Item)} (h : alookup p pm = some sub) :
    pmRules pm = rulesOfGs sub + pmRules (removeFirst p pm) := by
  induction pm with
  | nil => simp [alookup] at h
  | cons kb rest ih =>
    by_cases hk : kb.1 = p
    · simp only [alookup, hk, if_true, Option.some.injEq] at h
      subst h
      simp [removeFirst, hk, pmRules_cons]
    · simp only [alookup, hk, if_false] at h
      simp only [removeFirst, hk, if_false, pmRules_cons]
      rw [ih h]
      abel

theorem lookupSum_le (ps : List Int) (pm : List (Int × List (String × List Item)))
    (hnd : ps.Nodup) : lookupSum pm ps ≤ pmRules pm := by
  induction ps generalizing pm with
  | nil => simp [lookupSum]
  | cons p rest ih =>
    have hsum : lookupSum pm (p :: rest)
        = rulesOfGs ((alookup p pm).getD []) + lookupSum pm rest := by
      simp [lookupSum]
    rw [hsum]
    cases h : alookup p pm with
    | none =>
      rw [show ((none : Option (List (String × List Item))).getD []) = [] from rfl]
      rw [show rulesOfGs [] = 0 from rfl, zero_add]
      exact ih pm (List.nodup_cons.mp hnd).2
    | some sub =>
      have hrw : lookupSum pm rest = lookupSum (removeFirst p pm) rest := by
        unfold lookupSum
        congr 1
        refine List.map_congr_left ?_
        intro q hq
        have hqp : q ≠ p := fun he => (List.nodup_cons.mp hnd).1 (he ▸ hq)
        rw [alookup_removeFirst hqp]
      rw [pmRules_removeFirst h, hrw, Option.getD_some]
      exact add_le_add_left (ih _ (List.nodup_cons.mp hnd).2) _

theorem pmInsert_keys_nodup {pm : List (Int × List (String × List Item))} {p : Int}
    {k : String} {it : Item} (h : (pm.map Prod.fst).Nodup) :
    ((pmInsert pm p k it).map Prod.fst).Nodup := by
  unfold pmInsert
  cases hl : alookup p pm with
  | none =>
    have : p ∉ pm.map Prod.fst := alookup_eq_none.mp hl
    simp [List.nodup_append, h, this]
  | some sub =>
    rw [map_fst_dictSet _ hl]
    exact h

theorem buildPrioMap_keys_nodup (gs : List (String × List Item)) :
    ((buildPrioMap gs).map Prod.fst).Nodup := by
  unfold buildPrioMap
  refine @foldl_inv _ _ (fun pm => ((pm.map Prod.fst)).Nodup)
    (fun pm kb => kb.2.foldl (fun pm2 it => pmInsert pm2 it.rule.priority kb.1 it) pm)
    gs [] (by simp) ?_
  intro pm kb _ hpm
  refine @foldl_inv _ _ (fun pm2 => ((pm2.map Prod.fst)).Nodup)
    (fun pm2 it => pmInsert pm2 it.rule.priority kb.1 it) kb.2 pm hpm ?_
  intro pm2 it _ hpm2
  exact pmInsert_keys_nodup hpm2

/-! ## Per-strategy sub-multiset bounds -/

theorem roundRobinSelect_ms (gs : List (String × List Item)) (maxP : Int) :
    (↑(roundRobinSelect gs maxP) : Multiset Rule) ≤ rulesOfGs gs := by
  unfold roundRobinSelect
  have h := rrGo_ms maxP (gsSize gs +
    (ssort (fun a b => decide (((alookup b gs).getD []).foldl
        (fun t i => t + i.rule.priority) 0 <
      ((alookup a gs).getD []).foldl (fun t i => t + i.rule.priority) 0))
      (gs.map (·.1))).length + 1)
    (ssort (fun a b => decide (((alookup b gs).getD []).foldl
        (fun t i => t + i.rule.priority) 0 <
      ((alookup a gs).getD []).foldl (fun t i => t + i.rule.priority) 0))
      (gs.map (·.1))) gs []
  simpa using h

theorem propSelect_ms (gs : List (String × List Item)) (maxP : Int) :
    (↑(propSelect gs maxP) : Multiset Rule) ≤ rulesOfGs gs := by
  unfold propSelect
  refine le_trans (fillLoop_ms maxP _ _) ?_
  rw [rulesOfItems_perm (ssort_perm rankLt _)]
  have hflat : rulesOfItems ((propPhase1 maxP (propAlloc gs maxP) gs []).2.foldl
      (fun acc kb => acc ++ kb.2) [])
      = rulesOfGs (propPhase1 maxP (propAlloc gs maxP) gs []).2 :=
    flatten_rules _
  rw [hflat]
  have hphase := propPhase1_ms maxP (propAlloc gs maxP) gs []
  refine le_of_eq ?_
  rw [hphase]
  simp

theorem prioBucketsSelect_ms (gs : List (String × List Item)) (maxP : Int) :
    (↑(prioBucketsSelect gs maxP) : Multiset Rule) ≤ rulesOfGs gs := by
  unfold prioBucketsSelect
  refine le_trans (pbGo_ms _ _ _ _) ?_
  have hnd : (ssort (fun a b => decide (b < a)) ((buildPrioMap gs).map (·.1))).Nodup :=
    ((ssort_perm (fun a b => decide (b < a)) _).nodup_iff).mpr (buildPrioMap_keys_nodup gs)
  have h1 := lookupSum_le (ssort (fun a b => decide (b < a))
    ((buildPrioMap gs).map (·.1))) (buildPrioMap gs) hnd
  rw [buildPrioMap_rules] at h1
  simpa using h1

theorem defaultSelect_ms (gs : List (String × List Item)) (maxP : Int) :
    (↑(defaultSelect gs maxP) : Multiset Rule) ≤ rulesOfGs gs := by
  unfold defaultSelect
  have hsub : List.Sublist
      (pyTake maxP (ssort rankLt (gs.foldl (fun acc kb => acc ++ kb.2) [])))
      (ssort rankLt (gs.foldl (fun acc kb => acc ++ kb.2) [])) := by
    unfold pyTake
    by_cases h : 0 ≤ maxP
    · simp only [h, if_true]
      exact List.take_sublist _ _
    · simp only [h, if_false]
      exact List.take_sublist _ _
  have hsp : List.Subperm
      (pyTake maxP (ssort rankLt (gs.foldl (fun acc kb => acc ++ kb.2) [])))
      (gs.foldl (fun acc kb => acc ++ kb.2) []) :=
    hsub.subperm.trans (ssort_perm rankLt _).subperm
  have hms : (↑(pyTake maxP (ssort rankLt (gs.foldl (fun acc kb => acc ++ kb.2) [])))
      : Multiset Item) ≤ ↑(gs.foldl (fun acc kb => acc ++ kb.2) []) :=
    Multiset.coe_le.mpr hsp
  have hmap := Multiset.map_le_map (f := fun it => it.rule) hms
  rw [Multiset.map_coe, Multiset.map_coe] at hmap
  calc (↑((pyTake maxP (ssort rankLt (gs.foldl (fun acc kb => acc ++ kb.2) []))).map
        (·.rule)) : Multiset Rule)
      ≤ ↑((gs.foldl (fun acc kb => acc ++ kb.2) []).map (·.rule)) := hmap
    _ = rulesOfGs gs := flatten_rules gs

/-! ## Pattern-table invariants -/

theorem goodBP_bpInsert {m : List (PKey × Item)} (pattern : String) (spec : Nat)
    (r : Rule) (h : GoodBP m) : GoodBP (bpInsert m pattern spec r) := by
  unfold bpInsert
  cases hl : alookup ((pattern, r.static, r.priority) : PKey) m with
  | none =>
    constructor
    · have hni : ((pattern, r.static, r.priority) : PKey) ∉ m.map Prod.fst :=
        alookup_eq_none.mp hl
      simp [List.nodup_append, h.1, hni]
    · intro ki hki
      rcases List.mem_append.mp hki with h2 | h2
      · exact h.2 ki h2
      · simp at h2
        subst h2
        rfl
  | some it =>
    have hmem := alookup_mem hl
    constructor
    · rw [map_fst_dictSet _ hl]
      exact h.1
    · intro ki hki
      rcases mem_dictSet hki with h2 | h2
      · subst h2
        by_cases hp : it.rule.priority < r.priority
        · simp [hp, tkey]
        · simp only [hp, if_false]
          exact h.2 _ hmem
      · exact h.2 ki h2

theorem goodBP_bpInsertShort {m : List (PKey × Item)} (r : Rule) (h : GoodBP m) :
    GoodBP (bpInsertShort m r) := by
  unfold bpInsertShort
  cases hl : alookup ((r.topic, r.static, r.priority) : PKey) m with
  | none =>
    constructor
    · have hni : ((r.topic, r.static, r.priority) : PKey) ∉ m.map Prod.fst :=
        alookup_eq_none.mp hl
      simp [List.nodup_append, h.1, hni]
    · intro ki hki
      rcases List.mem_append.mp hki with h2 | h2
      · exact h.2 ki h2
      · simp at h2
        subst h2
        rfl
  | some it =>
    have hmem := alookup_mem hl
    constructor
    · rw [map_fst_dictSet _ hl]
      exact h.1
    · intro ki hki
      rcases mem_dictSet hki with h2 | h2
      · subst h2
        by_cases hp : it.rule.priority < r.priority
        · simp [hp, tkey]
        · simp only [hp, if_false]
          exact h.2 _ hmem
      · exact h.2 ki h2

theorem goodBP_buildByPattern (uniq : List Rule) : GoodBP (buildByPattern uniq) := by
  unfold buildByPattern
  refine foldl_inv _ uniq [] ⟨by simp, by simp⟩ ?_
  intro m r _ hm
  cases patternsOf r.topic with
  | none => exact goodBP_bpInsertShort r hm
  | some pats =>
    refine foldl_inv (fun m2 ps => bpInsert m2 ps.1 ps.2 r) pats m hm ?_
    intro m2 ps _ hm2
    exact goodBP_bpInsert ps.1 ps.2 r hm2

theorem bpResolve_fst (cfg : Config) (m : List (PKey × Item)) (s : RngState) :
    (bpResolveGo cfg m s).1.map Prod.fst = m.map Prod.fst := by
  induction m generalizing s with
  | nil => simp [bpResolveGo]
  | cons ki rest ih => simp [bpResolveGo, ih]

theorem bpResolveItem_tkey (cfg : Config) (it : Item) (s : RngState) :
    tkey (bpResolveItem cfg it s).1.rule = tkey it.rule := by
  unfold bpResolveItem
  cases it.counts with
  | nil => rfl
  | cons c cs =>
    dsimp only
    cases hcs : ((c :: cs).filter (·.2 = (((c :: cs)).map (·.2)).foldl Nat.max 0)).map
      (·.1) with
    | nil => rfl
    | cons a as_ =>
      rcases hp : pickWeighted cfg a as_ s with ⟨act, s2⟩
      simp [hp, tkey]

theorem bpResolve_tkeys (cfg : Config) (m : List (PKey × Item)) (s : RngState) :
    (bpResolveGo cfg m s).1.map (fun ki => tkey ki.2.rule)
      = m.map (fun ki => tkey ki.2.rule) := by
  induction m generalizing s with
  | nil => simp [bpResolveGo]
  | cons ki rest ih =>
    obtain ⟨k, it⟩ := ki
    simp only [bpResolveGo, List.map_cons]
    rw [ih]
    simp [bpResolveItem_tkey]

/-! ## Identity-key uniqueness through the reducer and the backfill -/

theorem reduceSelect_ms (cfg : Config) (maxP : Int) (uniq : List Rule) (s : RngState) :
    (↑(reduceSelect cfg maxP uniq s).1 : Multiset Rule)
      ≤ rulesOfItems ((bpResolveGo cfg (buildByPattern uniq) s).1.map (·.2)) := by
  unfold reduceSelect
  rcases hbp : bpResolveGo cfg (buildByPattern uniq) s with ⟨bp2, s1⟩
  simp only [hbp]
  rw [← rulesOfGs_buildGroups (genGroupingKey cfg) (bp2.map (·.2)),
    ← rulesOfGs_sortGroups]
  by_cases h1 : genDistribution cfg = "round_robin"
  · simp only [h1, if_true]
    exact roundRobinSelect_ms _ maxP
  · by_cases h2 : genDistribution cfg = "proportional"
    · simp only [h1, h2, if_false, if_true]
      exact propSelect_ms _ maxP
    · by_cases h3 : genDistribution cfg = "priority_buckets"
      · simp only [h1, h2, h3, if_false, if_true]
        exact prioBucketsSelect_ms _ maxP
      · simp only [h1, h2, h3, if_false]
        exact defaultSelect_ms _ maxP

theorem nodup_map_of_msle {α β : Type} {l m : List α} (f : α → β)
    (h : (↑l : Multiset α) ≤ ↑m) (hnd : (m.map f).Nodup) : (l.map f).Nodup := by
  have h2 : Multiset.map f ↑l ≤ Multiset.map f ↑m := Multiset.map_le_map h
  rw [Multiset.map_coe, Multiset.map_coe] at h2
  have h3 : Multiset.Nodup ↑(l.map f) :=
    Multiset.nodup_of_le h2 (Multiset.coe_nodup.mpr hnd)
  exact Multiset.coe_nodup.mp h3

theorem map_tkey_buildByPattern (uniq : List Rule) :
    (buildByPattern uniq).map (fun ki => tkey ki.2.rule)
      = (buildByPattern uniq).map Prod.fst :=
  List.map_congr_left (fun ki hki => (goodBP_buildByPattern uniq).2 ki hki)

theorem reduceSelect_tkey_nodup (cfg : Config) (maxP : Int) (uniq : List Rule)
    (s : RngState) : ((reduceSelect cfg maxP uniq s).1.map tkey).Nodup := by
  have hms := reduceSelect_ms cfg maxP uniq s
  have hnd2 : ((((bpResolveGo cfg (buildByPattern uniq) s).1.map (·.2)).map
      (fun it => it.rule)).map tkey).Nodup := by
    rw [List.map_map, List.map_map]
    have he : ((bpResolveGo cfg (buildByPattern uniq) s).1.map
        (fun ki => tkey ki.2.rule)) = (buildByPattern uniq).map Prod.fst := by
      rw [bpResolve_tkeys, map_tkey_buildByPattern]
    have he2 : ((tkey ∘ (fun it : Item => it.rule)) ∘ (fun ki : PKey × Item => ki.2))
        = fun ki : PKey × Item => tkey ki.2.rule := rfl
    rw [he2, he]
    exact (goodBP_buildByPattern uniq).1
  exact nodup_map_of_msle tkey hms hnd2

theorem key5_nodup_of_tkey {l : List Rule} (h : (l.map tkey).Nodup) :
    (l.map key5).Nodup := by
  refine List.Nodup.of_map projT5 ?_
  rw [List.map_map, show projT5 ∘ key5 = tkey from funext fun r => rfl]
  exact h

theorem key5_nodup_of_key4 {l : List Rule} (h : (l.map key4).Nodup) :
    (l.map key5).Nodup := by
  refine List.Nodup.of_map proj45 ?_
  rw [List.map_map, show proj45 ∘ key5 = key4 from funext fun r => rfl]
  exact h

theorem dedupe_key4_nodup (cfg : Config) (rules : List Rule) (s : RngState) :
    ((finalizeGo cfg (groupRules rules) s).1.map key4).Nodup := by
  rw [finalizeGo_map_key4]
  have hg := goodGrouped_groupRules rules
  have he : (groupRules rules).map (fun kg => key4 kg.2.rep)
      = (groupRules rules).map Prod.fst :=
    List.map_congr_left (fun kg hkg => (hg.2 kg hkg).1)
  rw [he]
  exact hg.1

theorem backfillGo_key5_nodup (maxP : Int) (cands : List (Nat × Rule))
    (uniq : List Rule) (ex : List Key5) (hnd : (uniq.map key5).Nodup)
    (hsub : ∀ k ∈ uniq.map key5, k ∈ ex) :
    ((backfillGo maxP cands uniq ex).map key5).Nodup := by
  induction cands generalizing uniq ex with
  | nil => simpa [backfillGo] using hnd
  | cons c rest ih =>
    obtain ⟨cnt, cand⟩ := c
    unfold backfillGo
    by_cases h1 : (uniq.length : Int) ≥ maxP
    · simpa [h1] using hnd
    · simp only [h1, if_false]
      by_cases h2 : key5 cand ∈ ex
      · simp only [h2, if_true]
        exact ih uniq ex hnd hsub
      · simp only [h2, if_false]
        refine ih (uniq ++ [cand]) (ex ++ [key5 cand]) ?_ ?_
        · rw [List.map_append]
          refine List.Nodup.append hnd (by simp) ?_
          intro k hk1 hk2
          simp only [List.map_cons, List.map_nil, List.mem_singleton] at hk2
          subst hk2
          exact h2 (hsub _ hk1)
        · intro k hk
          rw [List.map_append] at hk
          rcases List.mem_append.mp hk with hk | hk
          · exact List.mem_append.mpr (.inl (hsub _ hk))
          · simp only [List.map_cons, List.map_nil, List.mem_singleton] at hk
            subst hk
            exact List.mem_append.mpr (.inr (by simp))

theorem backfill_key5_nodup (maxP : Int) (grouped : List (Key4 × Group))
    (uniq : List Rule) (hnd : (uniq.map key5).Nodup) :
    ((backfill maxP grouped uniq).map key5).Nodup := by
  unfold backfill
  split
  · exact backfillGo_key5_nodup _ _ _ _ hnd (fun k hk => hk)
  · exact hnd

/-- Claim C2 (corrected): for every configuration, budget, raw rule list and
generator state, no two rules in the final list handed to the serializer share
the full identity key extended with the action, `(topic, static, dynamic,
priority, action)`.  The claimed uniqueness on the four-field identity key
`(topic, static, dynamic, priority)` alone is refuted by `c2_counterexample`:
the backfill re-adds losing action variants that share the four-field key. -/
theorem c2_identity_uniqueness (cfg : Config) (maxP : Int) (rules : List Rule)
    (s : RngState) : (((pipelineTail cfg maxP rules s).1).map key5).Nodup := by
  unfold pipelineTail
  rcases hf : finalizeGo cfg (groupRules rules) s with ⟨uniq, s1⟩
  have hu4 : (uniq.map key4).Nodup := by
    have h := dedupe_key4_nodup cfg rules s
    rw [hf] at h
    exact h
  have hu5 : (uniq.map key5).Nodup := key5_nodup_of_key4 hu4
  simp only [hf]
  by_cases hred : maxP > 0 ∧ (uniq.length : Int) > maxP
  · rcases hr : reduceSelect cfg maxP uniq s1 with ⟨sel, s2⟩
    have hsel : (sel.map key5).Nodup := by
      have h := reduceSelect_tkey_nodup cfg maxP uniq s1
      rw [hr] at h
      exact key5_nodup_of_tkey h
    simp only [hred, if_true, hr]
    exact backfill_key5_nodup maxP (groupRules rules) sel hsel
  · simp only [hred, if_false]
    exact backfill_key5_nodup maxP (groupRules rules) uniq hu5

/-- Counterexample to claim C2 as stated: with a budget of 5 and three raw
rules on one identity key with actions grant, grant, deny, the deduplicated
set is one rule, but the backfill re-adds the losing deny variant, so the
final output holds two rules sharing the identity key
`(topic, static, dynamic, priority)`. -/
theorem c2_counterexample :
    ¬ (((pipelineTail emptyCfg 5 conflictRules st0).1).map key4).Nodup := by
  decide

/-! ## Backfill counting: the candidate pool tops the output up to the budget -/

theorem allCandidates_eq (grouped : List (Key4 × Group)) :
    allCandidates grouped = grouped.flatMap
      (fun kg => kg.2.counts.map (fun ac => (ac.2, { kg.2.rep with action := ac.1 }))) := by
  unfold allCandidates
  rw [foldl_append_eq]
  simp

theorem flatMap_len_ge {α β : Type} (l : List α) (f : α → List β)
    (h : ∀ x ∈ l, f x ≠ []) : l.length ≤ (l.flatMap f).length := by
  induction l with
  | nil => simp
  | cons x xs ih =>
    rw [List.flatMap_cons, List.length_append, List.length_cons]
    have h1 : 1 ≤ (f x).length := List.length_pos.mpr (h x (by simp))
    have h2 := ih (fun y hy => h y (by simp [hy]))
    omega

theorem allCandidates_len_ge (grouped : List (Key4 × Group)) (h : GoodGrouped grouped) :
    grouped.length ≤ (allCandidates grouped).length := by
  rw [allCandidates_eq]
  refine flatMap_len_ge grouped _ ?_
  intro kg hkg
  have hne := (h.2 kg hkg).2.1
  intro hmap
  exact hne (List.map_eq_nil_iff.mp hmap)

theorem allCandidates_key5_nodup (grouped : List (Key4 × Group))
    (h : GoodGrouped grouped) :
    ((allCandidates grouped).map (fun c => key5 c.2)).Nodup := by
  rw [allCandidates_eq, List.map_flatMap]
  rw [List.nodup_flatMap]
  constructor
  · intro kg hkg
    rw [List.map_map]
    have hcn := (h.2 kg hkg).2.2
    have he : (kg.2.counts.map ((fun c : Nat × Rule => key5 c.2)
          ∘ (fun ac : String × Nat => (ac.2, { kg.2.rep with action := ac.1 }))))
        = (kg.2.counts.map Prod.fst).map (fun a =>
            (kg.2.rep.topic, kg.2.rep.static, kg.2.rep.dynamic, kg.2.rep.priority, a)) := by
      rw [List.map_map]
      rfl
    rw [he]
    refine List.Nodup.map ?_ hcn
    intro a b hab
    exact congrArg (fun k : Key5 => k.2.2.2.2) hab
  · have hp : grouped.Pairwise (fun a b => a.1 ≠ b.1) := List.pairwise_map.mp h.1
    refine List.Pairwise.imp_of_mem ?_ hp
    intro kg kg2 hm1 hm2 hne
    intro k hk1 hk2
    have h1 : proj45 k = kg.1 := by
      rcases List.mem_map.mp hk1 with ⟨c, hc, he⟩
      rcases List.mem_map.mp hc with ⟨ac, hac, he2⟩
      subst he2
      subst he
      exact (h.2 kg hm1).1
    have h2 : proj45 k = kg2.1 := by
      rcases List.mem_map.mp hk2 with ⟨c, hc, he⟩
      rcases List.mem_map.mp hc with ⟨ac, hac, he2⟩
      subst he2
      subst he
      exact (h.2 kg2 hm2).1
    exact hne (h1 ▸ h2)

theorem backfillGo_len (maxP : Int) (cands : List (Nat × Rule)) (uniq : List Rule)
    (ex : List Key5) (hle : (uniq.length : Int) ≤ maxP)
    (hdisj : ∀ c ∈ cands, key5 c.2 ∉ ex)
    (hnd : (cands.map (fun c => key5 c.2)).Nodup) :
    (backfillGo maxP cands uniq ex).length
      = min maxP.toNat (uniq.length + cands.length) := by
  induction cands generalizing uniq ex with
  | nil =>
    simp only [backfillGo, List.length_nil, Nat.add_zero]
    omega
  | cons c rest ih =>
    obtain ⟨cnt, cand⟩ := c
    unfold backfillGo
    by_cases h1 : (uniq.length : Int) ≥ maxP
    · simp only [h1, if_true, List.length_cons]
      omega
    · simp only [h1, if_false]
      have h2 : key5 cand ∉ ex := hdisj (cnt, cand) (by simp)
      simp only [h2, if_false]
      have hle2 : ((uniq ++ [cand]).length : Int) ≤ maxP := by
        rw [List.length_append, List.length_singleton]
        push_cast
        omega
      have hd2 : ∀ c2 ∈ rest, key5 c2.2 ∉ ex ++ [key5 cand] := by
        intro c2 hc2 hmem
        rcases List.mem_append.mp hmem with hm | hm
        · exact hdisj c2 (by simp [hc2]) hm
        · simp only [List.mem_singleton] at hm
          have : key5 c2.2 ∈ rest.map (fun c3 => key5 c3.2) :=
            List.mem_map.mpr ⟨c2, hc2, rfl⟩
          rw [List.map_cons] at hnd
          exact (List.nodup_cons.mp hnd).1 (hm ▸ this)
      have hn2 : (rest.map (fun c2 => key5 c2.2)).Nodup := by
        rw [List.map_cons] at hnd
        exact (List.nodup_cons.mp hnd).2
      rw [ih (uniq ++ [cand]) (ex ++ [key5 cand]) hle2 hd2 hn2]
      simp only [List.length_append, List.length_cons, List.length_nil]
      omega

theorem backfill_len_ge (maxP : Int) (grouped : List (Key4 × Group))
    (uniq : List Rule) : uniq.length ≤ (backfill maxP grouped uniq).length := by
  unfold backfill
  split
  · exact backfillGo_len_ge _ _ _ _
  · exact le_refl _

theorem backfill_len_le (maxP : Int) (grouped : List (Key4 × Group))
    (uniq : List Rule) (h : (uniq.length : Int) ≤ maxP) :
    ((backfill maxP grouped uniq).length : Int) ≤ maxP := by
  unfold backfill
  split
  · exact backfillGo_len_le _ _ _ _ h
  · exact h

theorem backfill_exact (maxP : Int) (grouped : List (Key4 × Group)) (uniq : List Rule)
    (hg : GoodGrouped grouped) (hB : 0 < maxP)
    (hle : (uniq.length : Int) ≤ maxP)
    (hgt : (grouped.length : Int) > maxP) :
    ((backfill maxP grouped uniq).length : Int) = maxP := by
  unfold backfill
  by_cases hc : maxP > 0 ∧ (uniq.length : Int) < maxP
  · rw [if_pos hc]
    have hsort := ssort_perm candLt
      ((allCandidates grouped).filter (fun c => key5 c.2 ∉ uniq.map key5))
    have hd : ∀ c ∈ ssort candLt
        ((allCandidates grouped).filter (fun c => key5 c.2 ∉ uniq.map key5)),
        key5 c.2 ∉ uniq.map key5 := by
      intro c hc2
      have hm := (hsort.mem_iff).mp hc2
      have := List.of_mem_filter hm
      simpa using this
    have hfn : (((allCandidates grouped).filter
        (fun c => key5 c.2 ∉ uniq.map key5)).map (fun c => key5 c.2)).Nodup :=
      List.Nodup.sublist ((List.filter_sublist _).map _) (allCandidates_key5_nodup grouped hg)
    have hn : ((ssort candLt ((allCandidates grouped).filter
        (fun c => key5 c.2 ∉ uniq.map key5))).map (fun c => key5 c.2)).Nodup :=
      ((hsort.map (fun c => key5 c.2)).nodup_iff).mpr hfn
    have hlen := backfillGo_len maxP
      (ssort candLt ((allCandidates grouped).filter (fun c => key5 c.2 ∉ uniq.map key5)))
      uniq (uniq.map key5) hle hd hn
    have hout : (((allCandidates grouped).filter
        (fun c => ¬ (key5 c.2 ∉ uniq.map key5))).map (fun c => key5 c.2)).Nodup :=
      List.Nodup.sublist ((List.filter_sublist _).map _) (allCandidates_key5_nodup grouped hg)
    have hsubset : (((allCandidates grouped).filter
        (fun c => ¬ (key5 c.2 ∉ uniq.map key5))).map (fun c => key5 c.2))
          ⊆ uniq.map key5 := by
      intro k hk
      rcases List.mem_map.mp hk with ⟨c, hcm, he⟩
      have := List.of_mem_filter hcm
      subst he
      simpa using this
    have houtle : (((allCandidates grouped).filter
          (fun c => ¬ (key5 c.2 ∉ uniq.map key5))).map (fun c => key5 c.2)).length
        ≤ (uniq.map key5).length :=
      (List.subperm_of_subset hout hsubset).length_le
    have hpart := @List.length_eq_length_filter_add (Nat × Rule) (allCandidates grouped)
      (fun c : Nat × Rule => decide (key5 c.2 ∉ uniq.map key5))
    have hgl := allCandidates_len_ge grouped hg
    have hslen : (ssort candLt ((allCandidates grouped).filter
          (fun c => key5 c.2 ∉ uniq.map key5))).length
        = ((allCandidates grouped).filter (fun c => key5 c.2 ∉ uniq.map key5)).length :=
      hsort.length_eq
    rw [List.length_map, List.length_map] at houtle
    rw [hlen, hslen]
    have hfe : ((allCandidates grouped).filter (fun c => (!decide (key5 c.2 ∉ uniq.map key5)))).length
        = ((allCandidates grouped).filter (fun c => ¬ (key5 c.2 ∉ uniq.map key5))).length := by
      congr 1
      refine List.filter_congr ?_
      intro c _
      by_cases hcc : key5 c.2 ∈ uniq.map key5
      · simp [hcc]
      · simp [hcc]
    rw [hfe] at hpart
    omega
  · rw [if_neg hc]
    push_neg at hc
    have := hc hB
    omega

/-- Claim C1 (corrected): for every configuration, positive budget B, raw rule
list and generator state, if the deduplicated unique count (the number of
identity-key groups) exceeds B then the final list handed to the serializer
has exactly B rules; if it does not exceed B, the final count lies between the
unique count and B — it need not equal the unique count, because the backfill
(lines 823-853) can top the output up with losing action variants, as
`c1_counterexample` shows.  In all cases the final count never exceeds B. -/
theorem c1_budget_exactness (cfg : Config) (B : Int) (rules : List Rule)
    (s : RngState) (hB : 0 < B) :
    ((((groupRules rules).length : Int) > B →
      (((pipelineTail cfg B rules s).1).length : Int) = B) ∧
     (((groupRules rules).length : Int) ≤ B →
      (groupRules rules).length ≤ (pipelineTail cfg B rules s).1.length ∧
      (((pipelineTail cfg B rules s).1).length : Int) ≤ B)) := by
  unfold pipelineTail
  rcases hf : finalizeGo cfg (groupRules rules) s with ⟨uniq, s1⟩
  have hul : uniq.length = (groupRules rules).length := by
    have h := finalizeGo_length cfg (groupRules rules) s
    rw [hf] at h
    exact h
  simp only [hf]
  constructor
  · intro hgt
    have hcond : B > 0 ∧ (uniq.length : Int) > B := ⟨hB, by rw [hul]; exact hgt⟩
    rw [if_pos hcond]
    rcases hr : reduceSelect cfg B uniq s1 with ⟨sel, s2⟩
    simp only [hr]
    have hsl : ((sel.length : Int)) ≤ B := by
      have h := reduceSelect_len_le cfg B uniq s1 (le_of_lt hB)
      rw [hr] at h
      exact h
    exact backfill_exact B (groupRules rules) sel (goodGrouped_groupRules rules)
      hB hsl hgt
  · intro hle
    have hcond : ¬ (B > 0 ∧ (uniq.length : Int) > B) := by
      rw [hul]
      intro h
      omega
    rw [if_neg hcond]
    constructor
    · rw [← hul]
      exact backfill_len_ge B (groupRules rules) uniq
    · exact backfill_len_le B (groupRules rules) uniq (by rw [hul]; exact hle)

/-- Witness for C1 at a concrete input: budget 2, three conflicting raw rules
on one identity key.  The unique count is 1 ≤ 2, and the final output has
between 1 and 2 rules. -/
theorem c1_witness :
    ((((groupRules conflictRules).length : Int) > 2 →
      (((pipelineTail emptyCfg 2 conflictRules st0).1).length : Int) = 2) ∧
     (((groupRules conflictRules).length : Int) ≤ 2 →
      (groupRules conflictRules).length
          ≤ (pipelineTail emptyCfg 2 conflictRules st0).1.length ∧
      (((pipelineTail emptyCfg 2 conflictRules st0).1).length : Int) ≤ 2)) :=
  c1_budget_exactness emptyCfg 2 conflictRules st0 (by decide)

/-- Counterexample to claim C1 as stated: with budget 5 and three raw rules on
one identity key (actions grant, grant, deny), the deduplicated unique count
is 1 ≤ 5, yet the final output does not have 1 rule — the backfill adds the
losing deny variant, giving 2 rules. -/
theorem c1_counterexample :
    ((groupRules conflictRules).length : Int) ≤ 5 ∧
      (pipelineTail emptyCfg 5 conflictRules st0).1.length
        ≠ (groupRules conflictRules).length := by
  decide

/-- Claim C3: for every configuration (and CLI arguments) whose effective seed
is an integer, two independent runs of the full pipeline — here: two runs from
arbitrary, possibly different ambient generator states — produce byte-identical
output text.  The generator state is reset from the seed, after which the
whole pipeline is a pure function of the configuration. -/
theorem c3_determinism_under_seed (args : Args) (cfg : Config) (i : Int)
    (amb1 amb2 : RngState) (h : effSeed args cfg = some i) :
    runMain args cfg amb1 = runMain args cfg amb2 := by
  unfold runMain pipelineRules
  rw [h]

theorem c3_witness :
    effSeed seededArgs cfgExp = some 7 ∧
      runMain seededArgs cfgExp ⟨3⟩ = runMain seededArgs cfgExp ⟨99⟩ :=
  ⟨rfl, c3_determinism_under_seed seededArgs cfgExp 7 ⟨3⟩ ⟨99⟩ rfl⟩

/-! ## Claim C8: action resolver fallback -/

/-- Claim C8: whenever the effective weight set is empty after discarding
non-numeric and non-positive weights (in particular when no weight table is
configured at either level), `choose_action` returns the fixed action,
defaulting to deny, and does not touch the random generator. -/
theorem c8_action_fallback (p : ActPolicy) (cfg : Config) (s : RngState)
    (h : positiveItems (effProbs p cfg) = []) :
    choose_action p cfg s = (p.action.getD "deny", s) := by
  unfold choose_action
  cases hp : effProbs p cfg with
  | nil => rfl
  | cons x xs =>
    rw [hp] at h
    simp [h]

theorem c8_witness :
    positiveItems (effProbs junkWeights emptyCfg) = [] ∧
      choose_action junkWeights emptyCfg st0 = ("filter", st0) :=
  ⟨by decide, c8_action_fallback junkWeights emptyCfg st0 (by decide)⟩

/-! ## Claim C9: majority conflict resolution -/

/-- Claim C9: in the deduplicator, a group whose action tally has a strictly
unique maximum resolves to that action, for every weight table and random
state; `[grant, grant, deny]` resolving to grant is the witness below. -/
theorem c9_majority_resolution (cfg : Config) (counts : List (String × Nat))
    (fb a : String) (m : Nat) (s : RngState)
    (hnd : (counts.map Prod.fst).Nodup) (hmem : (a, m) ∈ counts)
    (hlt : ∀ bc ∈ counts, bc.1 ≠ a → bc.2 < m) :
    (resolveGroupAction cfg counts fb s).1 = a := by
  have hle : ∀ c ∈ counts.map (·.2), c ≤ m := by
    intro c hc
    rcases List.mem_map.mp hc with ⟨bc, hbc, he⟩
    obtain ⟨b1, b2⟩ := bc
    simp only at he
    by_cases hba : b1 = a
    · subst hba
      have hbm : b2 = m := nodup_key_unique hnd hbc hmem
      omega
    · have := hlt (b1, b2) hbc (by simpa using hba)
      simp only at this
      omega
  have hmax : (counts.map (·.2)).foldl Nat.max 0 = m :=
    foldlMax_eq (List.mem_map.mpr ⟨(a, m), hmem, rfl⟩) hle
  unfold resolveGroupAction
  simp only [hmax, filter_unique_max hnd hmem hlt, List.map_cons, List.map_nil]
  exact pickWeighted_fst_singleton cfg a s

theorem c9_witness :
    ((("grant", 2) : String × Nat) ∈
        ([("grant", 2), ("deny", 1)] : List (String × Nat))) ∧
      (resolveGroupAction emptyCfg [("grant", 2), ("deny", 1)] "deny" st0).1 = "grant" :=
  ⟨by decide,
    c9_majority_resolution emptyCfg [("grant", 2), ("deny", 1)] "deny" "grant" 2 st0
      (by decide) (by decide) (by decide)⟩

/-! ## Claim C10: attribute derivation raises on a bad clearance -/

theorem processUser_bad_clearance (cfg : Config) (u2u : List (Int × Option String))
    (devMap : List (String × List String)) (uid : Int)
    (attrs : List (String × String)) (nm : String) (s : RngState)
    (husr : alookup uid u2u = some (some nm)) (hnm : nm ≠ "")
    (hcl : clearanceOf attrs = none) :
    processUser cfg u2u devMap uid attrs s =
      .error "ValueError: invalid literal for int() with base 10" := by
  unfold processUser
  rw [husr]
  simp [hnm, hcl]

theorem guaGo_error (cfg : Config) (u2u : List (Int × Option String))
    (devMap : List (String × List String)) (l : List (Int × List (String × String)))
    (s : RngState) (uid : Int) (attrs : List (String × String)) (nm : String)
    (hmem : (uid, attrs) ∈ l) (husr : alookup uid u2u = some (some nm))
    (hnm : nm ≠ "") (hcl : clearanceOf attrs = none) :
    ∃ e, guaGo cfg u2u devMap l s = .error e := by
  induction l generalizing s with
  | nil => simp at hmem
  | cons hd rest ih =>
    obtain ⟨u1, a1⟩ := hd
    rcases List.mem_cons.mp hmem with h1 | h1
    · have h1' : u1 = uid ∧ a1 = attrs := by
        have := congrArg Prod.fst h1
        have h2 := congrArg Prod.snd h1
        exact ⟨this.symm, h2.symm⟩
      obtain ⟨e1, e2⟩ := h1'
      subst e1
      subst e2
      refine ⟨"ValueError: invalid literal for int() with base 10", ?_⟩
      unfold guaGo
      rw [processUser_bad_clearance cfg u2u devMap u1 a1 nm s husr hnm hcl]
    · unfold guaGo
      cases hp : processUser cfg u2u devMap u1 a1 s with
      | error e => exact ⟨e, rfl⟩
      | ok p =>
        obtain ⟨r1, s1⟩ := p
        obtain ⟨e, he⟩ := ih s1 h1
        refine ⟨e, ?_⟩
        simp only [he]

/-- Claim C10 (amended): for every user-attribute record that belongs to a
user id with a user record carrying a non-empty username, whose clearance
value with `#` removed is a non-empty non-integer string,
`generate_user_attribute_rules` raises and the run aborts.  (Records whose
user id has no user record are silently skipped, so the original
every-record claim fails; see the counterexample.) -/
theorem c10_bad_clearance_raises (cfg : Config) (s : RngState) (uid : Int)
    (attrs : List (String × String)) (nm : String)
    (hmem : (uid, attrs) ∈ buildUserAttrs cfg.user_attributes)
    (husr : alookup uid (buildUidToUser cfg.users) = some (some nm))
    (hnm : nm ≠ "") (hcl : clearanceOf attrs = none) :
    ∃ e, generate_user_attribute_rules cfg s = .error e := by
  unfold generate_user_attribute_rules
  exact guaGo_error cfg _ _ _ s uid attrs nm hmem husr hnm hcl

theorem c10_witness :
    ((1, [("clearance", "high")]) ∈ buildUserAttrs cfgClearUser.user_attributes) ∧
      alookup 1 (buildUidToUser cfgClearUser.users) = some (some "alice") ∧
      clearanceOf [("clearance", "high")] = none ∧
      ∃ e, generate_user_attribute_rules cfgClearUser st0 = .error e :=
  ⟨by decide, by decide, by decide,
    c10_bad_clearance_raises cfgClearUser st0 1 [("clearance", "high")] "alice"
      (by decide) (by decide) (by decide) (by decide)⟩

/-- Counterexample to claim C10 as stated: the record `(99, clearance, high)`
has a clearance that does not parse, yet with no matching user record the
derivation is skipped and the whole pipeline completes and produces output. -/
theorem c10_counterexample : exOk (runMain noArgs cfgClearNoUser st0) = true := by
  rfl

/-! ## Claim C7: missing or zero budget -/

/-- Claim C7 (amended): a budget of zero (or any non-positive budget) makes
the pipeline skip both the generalization phase and the backfill phase,
emitting exactly the deduplicated rule set.  An absent budget, however,
defaults to 1000 rather than "no limit"; see the counterexample. -/
theorem c7_zero_budget_skips (cfg : Config) (B : Int) (rules : List Rule)
    (s : RngState) (hB : B ≤ 0) :
    pipelineTail cfg B rules s = finalizeGo cfg (groupRules rules) s := by
  have hB' : ¬ B > 0 := by omega
  simp [pipelineTail, backfill, hB']

theorem c7_witness :
    ((0 : Int) ≤ 0) ∧
      pipelineTail emptyCfg 0 conflictRules st0 =
        finalizeGo emptyCfg (groupRules conflictRules) st0 :=
  ⟨by decide, c7_zero_budget_skips emptyCfg 0 conflictRules st0 (by decide)⟩

/-- Counterexample to claim C7 as stated: with the budget absent everywhere,
the run of `cfgConflict` emits two rules while its deduplicated set has one —
the backfill phase ran against the default budget of 1000 instead of being
skipped. -/
theorem c7_counterexample :
    (pipelineRules noArgs cfgConflict st0).map List.length = Except.ok 2 ∧
      (groupRules (expand_base_policies cfgConflict st0).1).length = 1 := by
  constructor
  · decide
  · decide

end PolicySim
